import Mathlib

/-!
Verification of the resilient multi-provider content generation orchestrator
of the ai_jpn_astro repository (src/agents/astrologer.py, src/agents/director.py).

Python strings are modelled as List Char; Python dictionaries / JSON values as
the JValue inductive below.  Timing calls (time.sleep) have no observable effect
in this model and are omitted.  External collaborators (the OpenRouter chat
endpoint, the model catalog, Google AI generate_content) are modelled as
oracles supplying the outcome of each call, so that the orchestrator logic
itself is embedded exactly as written.
-/

set_option maxRecDepth 10000

/-- Abbreviation: view a Lean string literal as a Python string (list of chars). -/
def cs (s : String) : List Char := s.toList

/-- The apostrophe character, built numerically. -/
def apos : Char := Char.ofNat 39

/-- Opening curly brace. -/
def lbrace : Char := Char.ofNat 123

/-- Closing curly brace. -/
def rbrace : Char := Char.ofNat 125

/-- Double quote. -/
def dquote : Char := '"'

/-- Backslash. -/
def bslash : Char := '\\'

/-- ASCII whitespace recognised by str.strip / json whitespace skipping. -/
def isWs (c : Char) : Bool := c = ' ' || c = '\t' || c = '\n' || c = '\r'

/-- Prefix test on char lists (model of str.startswith). -/
def isPref : List Char → List Char → Bool
  | [], _ => true
  | _ :: _, [] => false
  | a :: as, b :: bs => a = b && isPref as bs

/-- Substring test (model of the Python "in" operator on strings). -/
def hasSubstr (p : List Char) : List Char → Bool
  | [] => isPref p []
  | c :: rest => isPref p (c :: rest) || hasSubstr p rest

/-- ASCII lower-casing of one char (model of str.lower on the ASCII range). -/
def lowerCh (c : Char) : Char :=
  if 'A' ≤ c ∧ c ≤ 'Z' then Char.ofNat (c.toNat + 32) else c

/-- Model of str.lower. -/
def lower (s : List Char) : List Char := s.map lowerCh

/-- Model of str.lstrip(). -/
def lstrip (s : List Char) : List Char := s.dropWhile isWs

/-- Model of str.rstrip(). -/
def rstrip (s : List Char) : List Char := (s.reverse.dropWhile isWs).reverse

/-- Model of str.strip(). -/
def trimWs (s : List Char) : List Char := rstrip (lstrip s)

/-- Fuel-indexed worker for replaceAll (input length is always enough fuel). -/
def replaceAllF (p r : List Char) : Nat → List Char → List Char
  | _, [] => []
  | 0, s => s
  | fuel + 1, c :: rest =>
    if p ≠ [] ∧ isPref p (c :: rest) then
      r ++ replaceAllF p r fuel ((c :: rest).drop p.length)
    else
      c :: replaceAllF p r fuel rest

theorem replaceAllF_nil (p r : List Char) (fuel : Nat) : replaceAllF p r fuel [] = [] := by
  cases fuel <;> rfl

theorem replaceAllF_irrel (p r : List Char) :
    ∀ f1, ∀ f2 (s : List Char), s.length ≤ f1 → s.length ≤ f2 →
      replaceAllF p r f1 s = replaceAllF p r f2 s := by
  intro f1
  induction f1 with
  | zero =>
    intro f2 s h1 _
    have : s = [] := by
      cases s with
      | nil => rfl
      | cons a l => simp at h1
    subst this
    rw [replaceAllF_nil, replaceAllF_nil]
  | succ g ih =>
    intro f2 s h1 h2
    match s with
    | [] => rw [replaceAllF_nil, replaceAllF_nil]
    | c :: rest =>
      match f2 with
      | 0 => simp at h2
      | g2 + 1 =>
        rw [replaceAllF, replaceAllF]
        by_cases hcond : p ≠ [] ∧ isPref p (c :: rest)
        · rw [if_pos hcond, if_pos hcond]
          have hp : 0 < p.length := List.length_pos.mpr hcond.1
          have hd : ((c :: rest).drop p.length).length ≤ rest.length := by
            simp only [List.length_drop, List.length_cons]
            omega
          rw [ih g2 _ (by simp at h1; omega) (by simp at h2; omega)]
        · rw [if_neg hcond, if_neg hcond]
          rw [ih g2 rest (by simp at h1; omega) (by simp at h2; omega)]

/-- Model of str.replace: replace every non-overlapping occurrence of p
(leftmost first) by r.  Python's replace with an empty pattern inserts r
everywhere; the patterns used by the code are never empty, and for an empty
pattern this model returns the string unchanged. -/
def replaceAll (p r s : List Char) : List Char := replaceAllF p r s.length s

theorem replaceAll_nil (p r : List Char) : replaceAll p r [] = [] := rfl

theorem replaceAll_cons (p r : List Char) (c : Char) (rest : List Char) :
    replaceAll p r (c :: rest) =
      if p ≠ [] ∧ isPref p (c :: rest) then
        r ++ replaceAll p r ((c :: rest).drop p.length)
      else
        c :: replaceAll p r rest := by
  show replaceAllF p r (rest.length + 1) (c :: rest) = _
  rw [replaceAllF]
  by_cases hcond : p ≠ [] ∧ isPref p (c :: rest)
  · rw [if_pos hcond, if_pos hcond]
    have hp : 0 < p.length := List.length_pos.mpr hcond.1
    unfold replaceAll
    rw [replaceAllF_irrel p r rest.length _ _
      (by simp only [List.length_drop, List.length_cons]; omega) (le_refl _)]
  · rw [if_neg hcond, if_neg hcond]
    rfl

/-- Fuel-indexed worker for splitOnSub. -/
def splitGoF (p : List Char) : Nat → List Char → List Char → List (List Char)
  | _, [], acc => [acc.reverse]
  | 0, s, acc => [acc.reverse ++ s]
  | fuel + 1, c :: rest, acc =>
    if p ≠ [] ∧ isPref p (c :: rest) then
      acc.reverse :: splitGoF p fuel ((c :: rest).drop p.length) []
    else
      splitGoF p fuel rest (c :: acc)

/-- Helper for splitOnSub: accumulates the current piece in reverse. -/
def splitGo (p s acc : List Char) : List (List Char) := splitGoF p s.length s acc

/-- Model of str.split(sep) for a non-empty separator. -/
def splitOnSub (p s : List Char) : List (List Char) := splitGo p s []

/-! ## Credential Rotation (AstrologerAgent._switch_to_backup_key,
DirectorAgent._switch_to_backup_key — the two methods are identical). -/

/-- The credential-rotation state shared by both agents: the ordered key list
and the index of the active key. -/
structure KeyState where
  api_keys : List (List Char)
  current_key_index : Nat

/-- Embedding of _switch_to_backup_key: if the index is not the last one,
increment it (re-initialising the client has no observable effect here) and
return True, else return False.  The comparison is done in Int exactly as
Python evaluates current_key_index < len(api_keys) - 1. -/
def switch_to_backup_key (s : KeyState) : KeyState × Bool :=
  if (s.current_key_index : Int) < (s.api_keys.length : Int) - 1 then
    ({ s with current_key_index := s.current_key_index + 1 }, true)
  else
    (s, false)

/-- Call _switch_to_backup_key N times, collecting the returned booleans in
call order. -/
def advanceCalls : Nat → KeyState → KeyState × List Bool
  | 0, s => (s, [])
  | n + 1, s =>
    let p := switch_to_backup_key s
    let q := advanceCalls n p.1
    (q.1, p.2 :: q.2)

theorem switch_step (keys : List (List Char)) (i : Nat) :
    switch_to_backup_key ⟨keys, i⟩ =
      if i + 1 < keys.length then (⟨keys, i + 1⟩, true) else (⟨keys, i⟩, false) := by
  unfold switch_to_backup_key
  by_cases h : i + 1 < keys.length
  · have hz : (i : Int) < (keys.length : Int) - 1 := by omega
    simp [hz, h]
  · have hz : ¬ (i : Int) < (keys.length : Int) - 1 := by omega
    simp [hz, h]

/-- Behaviour of N successive advance calls, from an arbitrary starting index. -/
theorem advanceCalls_spec (N : Nat) :
    ∀ (keys : List (List Char)) (i : Nat),
      (advanceCalls N ⟨keys, i⟩).1.api_keys = keys ∧
      (advanceCalls N ⟨keys, i⟩).1.current_key_index =
        min (i + N) (max i (keys.length - 1)) ∧
      (advanceCalls N ⟨keys, i⟩).2 =
        List.replicate (min N ((keys.length - 1) - i)) true ++
        List.replicate (N - ((keys.length - 1) - i)) false := by
  induction N with
  | zero =>
    intro keys i
    refine ⟨rfl, ?_, ?_⟩ <;> simp [advanceCalls] <;> omega
  | succ n ih =>
    intro keys i
    by_cases h : i + 1 < keys.length
    · have hgo :
          advanceCalls (n + 1) ⟨keys, i⟩ =
            ((advanceCalls n ⟨keys, i + 1⟩).1, true :: (advanceCalls n ⟨keys, i + 1⟩).2) := by
        show (let p := switch_to_backup_key ⟨keys, i⟩
              let q := advanceCalls n p.1
              (q.1, p.2 :: q.2)) = _
        rw [switch_step, if_pos h]
      obtain ⟨ih1, ih2, ih3⟩ := ih keys (i + 1)
      rw [hgo]
      refine ⟨ih1, ?_, ?_⟩
      · rw [ih2]; omega
      · rw [ih3]
        have hk : (keys.length - 1) - i = ((keys.length - 1) - (i + 1)) + 1 := by omega
        have hmin : min (n + 1) ((keys.length - 1) - i) =
            (min n ((keys.length - 1) - (i + 1))) + 1 := by omega
        have hsub : (n + 1) - ((keys.length - 1) - i) =
            n - ((keys.length - 1) - (i + 1)) := by omega
        rw [hmin, hsub, List.replicate_succ]
        simp
    · have hgo :
          advanceCalls (n + 1) ⟨keys, i⟩ =
            ((advanceCalls n ⟨keys, i⟩).1, false :: (advanceCalls n ⟨keys, i⟩).2) := by
        show (let p := switch_to_backup_key ⟨keys, i⟩
              let q := advanceCalls n p.1
              (q.1, p.2 :: q.2)) = _
        rw [switch_step, if_neg h]
      obtain ⟨ih1, ih2, ih3⟩ := ih keys i
      rw [hgo]
      refine ⟨ih1, ?_, ?_⟩
      · rw [ih2]; omega
      · rw [ih3]
        have hz : (keys.length - 1) - i = 0 := by omega
        rw [hz]
        simp [List.replicate_succ]

/-- Claim C6: for a credential list of length L ≥ 1, calling advance
(_switch_to_backup_key) N times returns true exactly for the first
min(N, L-1) calls and false thereafter (calls after the first false have no
further effect); after exhaustion api_keys[current_key_index] is still the
last credential, and current_key_index never decreases and never exceeds
L - 1. -/
theorem claim_C6_credential_rotation (keys : List (List Char)) (N : Nat)
    (hL : 1 ≤ keys.length) :
    (advanceCalls N ⟨keys, 0⟩).2 =
      List.replicate (min N (keys.length - 1)) true ++
      List.replicate (N - (keys.length - 1)) false ∧
    (advanceCalls N ⟨keys, 0⟩).1.current_key_index = min N (keys.length - 1) ∧
    (advanceCalls N ⟨keys, 0⟩).1.api_keys = keys ∧
    (advanceCalls N ⟨keys, 0⟩).1.current_key_index ≤ keys.length - 1 ∧
    (∀ m, m ≤ N →
      (advanceCalls m ⟨keys, 0⟩).1.current_key_index ≤
        (advanceCalls N ⟨keys, 0⟩).1.current_key_index) ∧
    (keys.length - 1 ≤ N →
      (advanceCalls N ⟨keys, 0⟩).1.api_keys[(advanceCalls N ⟨keys, 0⟩).1.current_key_index]? =
        keys.getLast?) := by
  obtain ⟨h1, h2, h3⟩ := advanceCalls_spec N keys 0
  have hidx : (advanceCalls N ⟨keys, 0⟩).1.current_key_index = min N (keys.length - 1) := by
    rw [h2]; omega
  refine ⟨?_, hidx, h1, ?_, ?_, ?_⟩
  · rw [h3]; simp
  · rw [hidx]; omega
  · intro m hm
    obtain ⟨_, hm2, _⟩ := advanceCalls_spec m keys 0
    rw [hm2, hidx]; omega
  · intro hN
    rw [h1, hidx, List.getLast?_eq_getElem?]
    congr 1
    omega

/-- Witness for C6 at a concrete 3-credential list and N = 5 (and, for the
monotonicity conjunct, m = 2). -/
theorem claim_C6_credential_rotation_witness :
    (advanceCalls 5 ⟨[cs "k1", cs "k2", cs "k3"], 0⟩).2 =
      List.replicate (min 5 2) true ++ List.replicate (5 - 2) false ∧
    (advanceCalls 2 ⟨[cs "k1", cs "k2", cs "k3"], 0⟩).1.current_key_index ≤
      (advanceCalls 5 ⟨[cs "k1", cs "k2", cs "k3"], 0⟩).1.current_key_index ∧
    (advanceCalls 5 ⟨[cs "k1", cs "k2", cs "k3"], 0⟩).1.api_keys[
      (advanceCalls 5 ⟨[cs "k1", cs "k2", cs "k3"], 0⟩).1.current_key_index]? =
      ([cs "k1", cs "k2", cs "k3"]).getLast? := by
  have h := claim_C6_credential_rotation [cs "k1", cs "k2", cs "k3"] 5 (by decide)
  exact ⟨h.1, h.2.2.2.2.1 2 (by decide), h.2.2.2.2.2 (by decide)⟩

/-! ## JSON values (the shape of Python dict/list/str/int/bool/None data as
produced by json.loads) and the models of json.dumps and json.loads. -/

/-- JSON values.  Numbers are modelled as integers (the generated content uses
integral numbers; floats are outside this model). -/
inductive JValue where
  | null : JValue
  | bool (b : Bool) : JValue
  | num (n : Int) : JValue
  | str (s : List Char) : JValue
  | arr (xs : List JValue) : JValue
  | obj (fields : List (List Char × JValue)) : JValue

/-- Python truthiness of a JSON value (empty dict/list/string, 0, False and
None are falsy). -/
def py_truthy : JValue → Bool
  | .null => false
  | .bool b => b
  | .num n => n ≠ 0
  | .str s => s ≠ []
  | .arr [] => false
  | .arr (_ :: _) => true
  | .obj [] => false
  | .obj (_ :: _) => true

/-- Dictionary lookup (first binding wins, as keys are unique in dicts built
by json.loads). -/
def jGet (j : JValue) (k : List Char) : Option JValue :=
  match j with
  | .obj fs => go fs
  | _ => none
where go : List (List Char × JValue) → Option JValue
  | [] => none
  | (k', v) :: rest => if k' = k then some v else go rest

/-- Dictionary assignment d[k] = v: replace the first binding of k in place,
or append a new binding. -/
def jSet (j : JValue) (k : List Char) (v : JValue) : JValue :=
  match j with
  | .obj fs => .obj (go fs)
  | other => other
where go : List (List Char × JValue) → List (List Char × JValue)
  | [] => [(k, v)]
  | (k', v') :: rest => if k' = k then (k, v) :: rest else (k', v') :: go rest

/-- The decimal digit characters. -/
def digitChar : Nat → Char
  | 0 => '0' | 1 => '1' | 2 => '2' | 3 => '3' | 4 => '4'
  | 5 => '5' | 6 => '6' | 7 => '7' | 8 => '8' | _ => '9'

/-- Fuel-indexed worker for the decimal rendering (n itself is enough fuel). -/
def serNatGoF : Nat → Nat → List Char → List Char
  | 0, n, acc => digitChar n :: acc
  | fuel + 1, n, acc =>
    if n < 10 then digitChar n :: acc
    else serNatGoF fuel (n / 10) (digitChar (n % 10) :: acc)

theorem serNatGoF_irrel :
    ∀ f1 f2 (n : Nat) (acc : List Char), n ≤ f1 → n ≤ f2 →
      serNatGoF f1 n acc = serNatGoF f2 n acc := by
  intro f1
  induction f1 with
  | zero =>
    intro f2 n acc h1 _
    have hn : n = 0 := by omega
    subst hn
    cases f2 with
    | zero => rfl
    | succ g => simp [serNatGoF]
  | succ g ih =>
    intro f2 n acc h1 h2
    by_cases h : n < 10
    · rw [serNatGoF, if_pos h]
      cases f2 with
      | zero =>
        have hn : n = 0 := by omega
        subst hn
        rfl
      | succ g2 => rw [serNatGoF, if_pos h]
    · have hf2 : ∃ g2, f2 = g2 + 1 := by
        cases f2 with
        | zero => omega
        | succ g2 => exact ⟨g2, rfl⟩
      obtain ⟨g2, rfl⟩ := hf2
      rw [serNatGoF, if_neg h, serNatGoF, if_neg h]
      have hd := Nat.div_lt_self (show 0 < n by omega) (show 1 < 10 by omega)
      exact ih g2 (n / 10) _ (by omega) (by omega)

/-- Decimal digits of n, most significant first. -/
def serNatGo (n : Nat) (acc : List Char) : List Char := serNatGoF n n acc

theorem serNatGo_unfold (n : Nat) (acc : List Char) :
    serNatGo n acc =
      if n < 10 then digitChar n :: acc
      else serNatGo (n / 10) (digitChar (n % 10) :: acc) := by
  unfold serNatGo
  by_cases h : n < 10
  · rw [if_pos h]
    cases n with
    | zero => rfl
    | succ m => rw [serNatGoF, if_pos h]
  · rw [if_neg h]
    have hne : ∃ m, n = m + 1 := by
      cases n with
      | zero => omega
      | succ m => exact ⟨m, rfl⟩
    obtain ⟨m, rfl⟩ := hne
    rw [serNatGoF, if_neg h]
    have hd := Nat.div_lt_self (show 0 < m + 1 by omega) (show 1 < 10 by omega)
    exact serNatGoF_irrel m ((m + 1) / 10) ((m + 1) / 10) _ (by omega) (by omega)

/-- Decimal rendering of a natural number. -/
def serNat (n : Nat) : List Char := serNatGo n []

/-- Decimal rendering of an integer (model of json.dumps on an int). -/
def serInt (n : Int) : List Char :=
  if n < 0 then '-' :: serNat n.natAbs else serNat n.toNat

/-- JSON string-content escaping: quotes and backslashes get a backslash
(other characters are rendered verbatim in this model). -/
def escapeStr : List Char → List Char
  | [] => []
  | c :: rest =>
    (if c = dquote || c = bslash then [bslash, c] else [c]) ++ escapeStr rest

/-- Serialisation of a JSON string literal. -/
def serStr (s : List Char) : List Char := dquote :: escapeStr s ++ [dquote]

mutual

/-- Model of json.dumps with its default separators (", " between items and
": " after keys). -/
def serVal : JValue → List Char
  | .null => cs "null"
  | .bool true => cs "true"
  | .bool false => cs "false"
  | .num n => serInt n
  | .str s => serStr s
  | .arr xs => '[' :: serItems xs ++ [']']
  | .obj fs => lbrace :: serFields fs ++ [rbrace]

def serItems : List JValue → List Char
  | [] => []
  | [v] => serVal v
  | v :: w :: rest => serVal v ++ ',' :: ' ' :: serItems (w :: rest)

def serFields : List (List Char × JValue) → List Char
  | [] => []
  | [(k, v)] => serStr k ++ ':' :: ' ' :: serVal v
  | (k, v) :: f :: rest =>
    serStr k ++ ':' :: ' ' :: serVal v ++ ',' :: ' ' :: serFields (f :: rest)

end

/-- Leading whitespace skipping in the JSON parser. -/
def skipWs (s : List Char) : List Char := s.dropWhile isWs

/-- True when the list starts with a decimal digit. -/
def digitLead : List Char → Bool
  | [] => false
  | c :: _ => c.isDigit

/-- Greedy digit-run parser, accumulating the value. -/
def parseNatAcc (a : Nat) : List Char → Nat × List Char
  | [] => (a, [])
  | c :: rest =>
    if c.isDigit then parseNatAcc (a * 10 + (c.toNat - 48)) rest else (a, c :: rest)

/-- Parse a non-empty digit run. -/
def parseNat : List Char → Option (Nat × List Char)
  | [] => none
  | c :: rest => if c.isDigit then some (parseNatAcc (c.toNat - 48) rest) else none

/-- One-character JSON escapes accepted after a backslash. -/
def unescapeCh (c : Char) : Option Char :=
  if c = dquote then some dquote
  else if c = bslash then some bslash
  else if c = '/' then some '/'
  else if c = 'n' then some '\n'
  else if c = 't' then some '\t'
  else if c = 'r' then some '\r'
  else none

/-- Parse the body of a JSON string literal (after the opening quote), up to
and including the closing quote. -/
def parseStrBody : List Char → Option (List Char × List Char)
  | [] => none
  | c :: rest =>
    if c = bslash then
      match rest with
      | [] => none
      | c2 :: rest2 =>
        match unescapeCh c2 with
        | none => none
        | some u =>
          match parseStrBody rest2 with
          | none => none
          | some p => some (u :: p.1, p.2)
    else if c = dquote then some ([], rest)
    else
      match parseStrBody rest with
      | none => none
      | some p => some (c :: p.1, p.2)

mutual

/-- Fuel-indexed JSON value parser (model of json.loads' recursive-descent
parser).  Fuel only limits nesting; input length + 1 always suffices. -/
def parseVal : Nat → List Char → Option (JValue × List Char)
  | 0, _ => none
  | fuel + 1, s =>
    match skipWs s with
    | [] => none
    | c :: r =>
      if c = dquote then
        match parseStrBody r with
        | none => none
        | some p => some (.str p.1, p.2)
      else if c = lbrace then
        match skipWs r with
        | [] => none
        | c2 :: r2 =>
          if c2 = rbrace then some (.obj [], r2)
          else
            match parseFields fuel (c2 :: r2) with
            | none => none
            | some p => some (.obj p.1, p.2)
      else if c = '[' then
        match skipWs r with
        | [] => none
        | c2 :: r2 =>
          if c2 = ']' then some (.arr [], r2)
          else
            match parseItems fuel (c2 :: r2) with
            | none => none
            | some p => some (.arr p.1, p.2)
      else if c = 't' then
        if isPref ['r', 'u', 'e'] r then some (.bool true, r.drop 3) else none
      else if c = 'f' then
        if isPref ['a', 'l', 's', 'e'] r then some (.bool false, r.drop 4) else none
      else if c = 'n' then
        if isPref ['u', 'l', 'l'] r then some (.null, r.drop 3) else none
      else if c = '-' then
        match parseNat r with
        | none => none
        | some p => some (.num (-(p.1 : Int)), p.2)
      else if c.isDigit then
        match parseNat (c :: r) with
        | none => none
        | some p => some (.num (p.1 : Int), p.2)
      else none

/-- Parse a non-empty comma-separated field list up to and including the
closing brace. -/
def parseFields : Nat → List Char → Option (List (List Char × JValue) × List Char)
  | 0, _ => none
  | fuel + 1, s =>
    match skipWs s with
    | [] => none
    | c :: r =>
      if c = dquote then
        match parseStrBody r with
        | none => none
        | some kp =>
          match skipWs kp.2 with
          | [] => none
          | c3 :: r3 =>
            if c3 = ':' then
              match parseVal fuel r3 with
              | none => none
              | some vp =>
                match skipWs vp.2 with
                | [] => none
                | c5 :: r5 =>
                  if c5 = ',' then
                    match parseFields fuel r5 with
                    | none => none
                    | some fp => some ((kp.1, vp.1) :: fp.1, fp.2)
                  else if c5 = rbrace then some ([(kp.1, vp.1)], r5)
                  else none
            else none
      else none

/-- Parse a non-empty comma-separated item list up to and including the
closing bracket. -/
def parseItems : Nat → List Char → Option (List JValue × List Char)
  | 0, _ => none
  | fuel + 1, s =>
    match parseVal fuel s with
    | none => none
    | some vp =>
      match skipWs vp.2 with
      | [] => none
      | c :: r =>
        if c = ',' then
          match parseItems fuel r with
          | none => none
          | some ip => some (vp.1 :: ip.1, ip.2)
        else if c = ']' then some ([vp.1], r)
        else none

end

/-- Model of json.loads: parse one JSON value and require the remainder to be
all whitespace. -/
def loads (s : List Char) : Option JValue :=
  match parseVal (s.length + 1) s with
  | none => none
  | some (v, rest) => if skipWs rest = [] then some v else none

/-! ### Round-trip of the JSON model: loads (serVal v) = some v. -/

theorem skipWs_not_ws (c : Char) (l : List Char) (h : isWs c = false) :
    skipWs (c :: l) = c :: l := by
  simp [skipWs, List.dropWhile, h]

theorem skipWs_sp (l : List Char) : skipWs (' ' :: l) = skipWs l := by
  simp [skipWs, List.dropWhile, isWs]

theorem digitChar_props (d : Nat) (h : d < 10) :
    (digitChar d).isDigit = true ∧ isWs (digitChar d) = false ∧
    ((digitChar d) = dquote) = False ∧ ((digitChar d) = lbrace) = False ∧
    ((digitChar d) = '[') = False ∧ ((digitChar d) = 't') = False ∧
    ((digitChar d) = 'f') = False ∧ ((digitChar d) = 'n') = False ∧
    ((digitChar d) = '-') = False ∧ (digitChar d).toNat - 48 = d := by
  interval_cases d <;> exact ⟨by decide, by decide, by decide, by decide, by decide,
    by decide, by decide, by decide, by decide, by decide⟩

theorem serNatGo_eq (n : Nat) : ∀ acc, serNatGo n acc = serNatGo n [] ++ acc := by
  induction n using Nat.strong_induction_on with
  | _ n ih =>
    intro acc
    by_cases h : n < 10
    · have hL : serNatGo n acc = digitChar n :: acc := by rw [serNatGo_unfold, if_pos h]
      have hR : serNatGo n [] = [digitChar n] := by rw [serNatGo_unfold, if_pos h]
      rw [hL, hR]
      simp
    · have hL : serNatGo n acc = serNatGo (n / 10) (digitChar (n % 10) :: acc) := by
        rw [serNatGo_unfold]
        rw [if_neg h]
      have hR : serNatGo n [] = serNatGo (n / 10) [digitChar (n % 10)] := by
        rw [serNatGo_unfold]
        rw [if_neg h]
      rw [hL, hR]
      rw [ih (n / 10) (Nat.div_lt_self (by omega) (by omega)),
          ih (n / 10) (Nat.div_lt_self (by omega) (by omega)) [digitChar (n % 10)]]
      simp

theorem serNatGo_head (n : Nat) :
    ∃ d t, d < 10 ∧ serNatGo n [] = digitChar d :: t := by
  induction n using Nat.strong_induction_on with
  | _ n ih =>
    by_cases h : n < 10
    · exact ⟨n, [], h, by rw [serNatGo_unfold, if_pos h]⟩
    · obtain ⟨d, t, hd, ht⟩ := ih (n / 10) (Nat.div_lt_self (by omega) (by omega))
      refine ⟨d, t ++ [digitChar (n % 10)], hd, ?_⟩
      rw [serNatGo_unfold, if_neg h, serNatGo_eq, ht]
      simp

theorem parseNatAcc_stop (a : Nat) (rest : List Char) (h : digitLead rest = false) :
    parseNatAcc a rest = (a, rest) := by
  match rest with
  | [] => rfl
  | c :: t =>
    simp only [digitLead] at h
    simp [parseNatAcc, h]

theorem parseNatAcc_digits (n : Nat) :
    ∀ a rest, parseNatAcc a (serNatGo n [] ++ rest) =
      parseNatAcc (a * 10 ^ (serNatGo n []).length + n) rest := by
  induction n using Nat.strong_induction_on with
  | _ n ih =>
    intro a rest
    by_cases h : n < 10
    · rw [serNatGo_unfold, if_pos h]
      obtain ⟨h1, _, _, _, _, _, _, _, _, h10⟩ := digitChar_props n h
      simp [parseNatAcc, h1, h10]
    · have hlt := Nat.div_lt_self (show 0 < n by omega) (show 1 < 10 by omega)
      have hsplit : serNatGo n [] = serNatGo (n / 10) [] ++ [digitChar (n % 10)] := by
        have hR : serNatGo n [] = serNatGo (n / 10) [digitChar (n % 10)] := by
          rw [serNatGo_unfold]
          rw [if_neg h]
        rw [hR, serNatGo_eq]
      rw [hsplit]
      rw [List.append_assoc, List.cons_append, List.nil_append]
      rw [ih (n / 10) hlt]
      obtain ⟨h1, _, _, _, _, _, _, _, _, h10⟩ :=
        digitChar_props (n % 10) (Nat.mod_lt n (by omega))
      simp only [parseNatAcc, h1, if_pos, h10]
      have hlen : (serNatGo (n / 10) [] ++ [digitChar (n % 10)]).length =
          (serNatGo (n / 10) []).length + 1 := by simp
      rw [hlen, pow_succ]
      have hdm : 10 * (n / 10) + n % 10 = n := Nat.div_add_mod n 10
      have : a * (10 ^ (serNatGo (n / 10) []).length * 10) =
          a * 10 ^ (serNatGo (n / 10) []).length * 10 := by ring
      rw [this]
      generalize a * 10 ^ (serNatGo (n / 10) []).length = m
      congr 1
      omega

theorem parseNat_digits (n : Nat) (rest : List Char) (h : digitLead rest = false) :
    parseNat (serNatGo n [] ++ rest) = some (n, rest) := by
  have hacc : parseNatAcc 0 (serNatGo n [] ++ rest) = (n, rest) := by
    rw [parseNatAcc_digits, parseNatAcc_stop _ _ h]
    simp
  obtain ⟨d, t, hd, ht⟩ := serNatGo_head n
  obtain ⟨h1, _, _, _, _, _, _, _, _, h10⟩ := digitChar_props d hd
  rw [ht] at hacc ⊢
  simp only [List.cons_append, List.append_eq, parseNatAcc, h1, if_pos, h10,
    Nat.zero_mul, Nat.zero_add] at hacc
  simp only [List.cons_append, List.append_eq, parseNat, h1, if_pos, h10]
  rw [hacc]

theorem parseStrBody_escape (s : List Char) :
    ∀ rest, parseStrBody (escapeStr s ++ dquote :: rest) = some (s, rest) := by
  induction s with
  | nil =>
    intro rest
    simp only [escapeStr, List.nil_append]
    rw [parseStrBody.eq_def]
    simp +decide [dquote, bslash]
  | cons c s' ih =>
    intro rest
    by_cases hc : c = dquote ∨ c = bslash
    · have hsel : (if c = dquote || c = bslash then [bslash, c] else [c]) = [bslash, c] := by
        rcases hc with hc | hc <;> simp [hc]
      have hun : unescapeCh c = some c := by
        rcases hc with hc | hc <;> simp [unescapeCh, hc, dquote, bslash]
      rw [escapeStr, hsel]
      simp only [List.cons_append, List.append_assoc, List.nil_append]
      rw [parseStrBody.eq_def]
      simp [hun, ih rest]
    · push_neg at hc
      have hsel : (if c = dquote || c = bslash then [bslash, c] else [c]) = [c] := by
        simp [hc.1, hc.2]
      rw [escapeStr, hsel]
      simp only [List.cons_append, List.nil_append]
      rw [parseStrBody.eq_def]
      simp [hc.1, hc.2, ih rest]

/-- The first character of any serialised value is not whitespace and is not a
container-continuation character. -/
theorem serVal_head (v : JValue) :
    ∃ c t, serVal v = c :: t ∧ isWs c = false ∧
      (c = ']') = False ∧ (c = rbrace) = False ∧ (c = ',') = False := by
  cases v with
  | null => exact ⟨'n', cs "ull", rfl, by decide, by decide, by decide, by decide⟩
  | bool b =>
    cases b with
    | true => exact ⟨'t', cs "rue", rfl, by decide, by decide, by decide, by decide⟩
    | false => exact ⟨'f', cs "alse", rfl, by decide, by decide, by decide, by decide⟩
  | num n =>
    by_cases hn : n < 0
    · exact ⟨'-', serNat n.natAbs, by simp [serVal, serInt, hn],
        by decide, by decide, by decide, by decide⟩
    · obtain ⟨d, t, hd, ht⟩ := serNatGo_head n.toNat
      obtain ⟨_, h2, _, _, _, _, _, _, _, _⟩ := digitChar_props d hd
      refine ⟨digitChar d, t, by simp [serVal, serInt, hn, serNat, ht], h2, ?_, ?_, ?_⟩ <;>
        interval_cases d <;> decide
  | str s => exact ⟨dquote, escapeStr s ++ [dquote], rfl, by decide, by decide,
      by decide, by decide⟩
  | arr xs => exact ⟨'[', serItems xs ++ [']'], rfl, by decide, by decide,
      by decide, by decide⟩
  | obj fs => exact ⟨lbrace, serFields fs ++ [rbrace], rfl, by decide, by decide,
      by decide, by decide⟩

theorem skipWs_serVal (v : JValue) (rest : List Char) :
    skipWs (serVal v ++ rest) = serVal v ++ rest := by
  obtain ⟨c, t, hc, hw, _, _, _⟩ := serVal_head v
  rw [hc, List.cons_append, skipWs_not_ws _ _ hw]

theorem serFields_head (fs : List (List Char × JValue)) (h : fs ≠ []) :
    ∃ t, serFields fs = dquote :: t := by
  match fs with
  | [(k, v)] => exact ⟨escapeStr k ++ [dquote] ++ ':' :: ' ' :: serVal v, by
      simp [serFields, serStr]⟩
  | (k, v) :: f :: rest =>
    exact ⟨escapeStr k ++ [dquote] ++ ':' :: ' ' :: serVal v ++
      ',' :: ' ' :: serFields (f :: rest), by simp [serFields, serStr]⟩

theorem skipWs_serFields (fs : List (List Char × JValue)) (h : fs ≠ [])
    (rest : List Char) :
    skipWs (serFields fs ++ rest) = serFields fs ++ rest := by
  obtain ⟨t, ht⟩ := serFields_head fs h
  rw [ht, List.cons_append, skipWs_not_ws _ _ (by decide)]

/-- The parser inverts the serialiser: parsing a serialised value (with any
non-digit-leading continuation) succeeds and returns exactly that value. -/
theorem parse_ser (fuel : Nat) :
    (∀ (v : JValue) (input rest : List Char), (serVal v).length < fuel →
       digitLead rest = false → skipWs input = serVal v ++ rest →
       parseVal fuel input = some (v, rest)) ∧
    (∀ (fs : List (List Char × JValue)) (input rest : List Char), fs ≠ [] →
       (serFields fs).length < fuel → skipWs input = serFields fs ++ rbrace :: rest →
       parseFields fuel input = some (fs, rest)) ∧
    (∀ (xs : List JValue) (input rest : List Char), xs ≠ [] →
       (serItems xs).length + 1 < fuel → skipWs input = serItems xs ++ ']' :: rest →
       parseItems fuel input = some (xs, rest)) := by
  induction fuel with
  | zero =>
    exact ⟨fun v _ _ h => absurd h (by omega),
      fun fs _ _ _ h => absurd h (by omega),
      fun xs _ _ _ h => absurd h (by omega)⟩
  | succ fuel ih =>
    obtain ⟨ih1, ih2, ih3⟩ := ih
    refine ⟨?_, ?_, ?_⟩
    · intro v input rest hlen hdl hin
      cases v with
      | null =>
        have hser : serVal JValue.null = 'n' :: 'u' :: 'l' :: 'l' :: [] := rfl
        rw [hser] at hin
        simp only [List.cons_append, List.nil_append] at hin
        rw [parseVal, hin]
        simp +decide [isPref]
      | bool b =>
        cases b with
        | true =>
          have hser : serVal (JValue.bool true) = 't' :: 'r' :: 'u' :: 'e' :: [] := rfl
          rw [hser] at hin
          simp only [List.cons_append, List.nil_append] at hin
          rw [parseVal, hin]
          simp +decide [isPref]
        | false =>
          have hser : serVal (JValue.bool false) = 'f' :: 'a' :: 'l' :: 's' :: 'e' :: [] := rfl
          rw [hser] at hin
          simp only [List.cons_append, List.nil_append] at hin
          rw [parseVal, hin]
          simp +decide [isPref]
      | num n =>
        by_cases hn : n < 0
        · have hser : serVal (JValue.num n) = '-' :: serNatGo n.natAbs [] := by
            simp [serVal, serInt, hn, serNat]
          rw [hser] at hin
          simp only [List.cons_append] at hin
          rw [parseVal, hin]
          have hpn : parseNat (serNatGo n.natAbs [] ++ rest) = some (n.natAbs, rest) :=
            parseNat_digits n.natAbs rest hdl
          simp +decide [hpn]
          rw [abs_of_neg hn]
          ring
        · have hser : serVal (JValue.num n) = serNatGo n.toNat [] := by
            simp [serVal, serInt, hn, serNat]
          rw [hser] at hin
          obtain ⟨d, t, hd, ht⟩ := serNatGo_head n.toNat
          obtain ⟨h1, h2, h3, h4, h5, h6, h7, h8, h9, h10⟩ := digitChar_props d hd
          rw [ht] at hin
          simp only [List.cons_append] at hin
          rw [parseVal, hin]
          have hpn : parseNat (digitChar d :: (t ++ rest)) = some (n.toNat, rest) := by
            have := parseNat_digits n.toNat rest hdl
            rw [ht] at this
            simpa using this
          simp [h1, h3, h4, h5, h6, h7, h8, h9, hpn,
            Int.toNat_of_nonneg (by omega : (0:Int) ≤ n)]
      | str s =>
        have hser : serVal (JValue.str s) = dquote :: (escapeStr s ++ [dquote]) := rfl
        rw [hser] at hin
        simp only [List.cons_append, List.append_assoc, List.nil_append] at hin
        rw [parseVal, hin]
        simp +decide [parseStrBody_escape]
      | arr xs =>
        have hser : serVal (JValue.arr xs) = '[' :: (serItems xs ++ [']']) := rfl
        rw [hser] at hin hlen
        simp only [List.cons_append, List.append_assoc, List.nil_append] at hin
        rw [parseVal, hin]
        match xs with
        | [] =>
          simp only [serItems, List.nil_append]
          rw [skipWs_not_ws _ _ (by decide)]
          simp +decide
        | v0 :: xs' =>
          obtain ⟨c0, t0, hc0, hw0, _, _, _⟩ := serVal_head v0
          have hitems : ∃ u, serItems (v0 :: xs') = c0 :: u := by
            match xs' with
            | [] => exact ⟨t0, by simp [serItems, hc0]⟩
            | w :: ws => exact ⟨t0 ++ ',' :: ' ' :: serItems (w :: ws), by
                simp [serItems, hc0]⟩
          obtain ⟨u, hu⟩ := hitems
          have hpi : parseItems fuel (serItems (v0 :: xs') ++ ']' :: rest) =
              some (v0 :: xs', rest) := by
            apply ih3 (v0 :: xs') _ rest (by simp)
            · simp only [List.length_cons, List.length_append] at hlen ⊢
              omega
            · rw [hu, List.cons_append, skipWs_not_ws _ _ hw0]
          rw [hu] at hpi ⊢
          simp only [List.cons_append] at hpi ⊢
          rw [skipWs_not_ws _ _ hw0]
          have hne : (c0 = ']') = False := by
            rcases (serVal_head v0) with ⟨c1, t1, hc1, _, hne1, _, _⟩
            rw [hc0] at hc1
            cases hc1
            exact hne1
          simp +decide [hne, hpi]
      | obj fs =>
        have hser : serVal (JValue.obj fs) = lbrace :: (serFields fs ++ [rbrace]) := rfl
        rw [hser] at hin hlen
        simp only [List.cons_append, List.append_assoc, List.nil_append] at hin
        rw [parseVal, hin]
        match fs with
        | [] =>
          simp only [serFields, List.nil_append]
          rw [skipWs_not_ws _ _ (by decide)]
          simp +decide
        | f0 :: fs' =>
          obtain ⟨t, ht⟩ := serFields_head (f0 :: fs') (by simp)
          have hpf : parseFields fuel (serFields (f0 :: fs') ++ rbrace :: rest) =
              some (f0 :: fs', rest) := by
            apply ih2 (f0 :: fs') _ rest (by simp)
            · simp only [List.length_cons, List.length_append] at hlen ⊢
              omega
            · rw [skipWs_serFields _ (by simp)]
          rw [ht] at hpf ⊢
          simp only [List.cons_append] at hpf ⊢
          rw [skipWs_not_ws _ _ (by decide)]
          simp +decide [hpf]
    · intro fs input rest hne hlen hin
      match fs with
      | (k, v) :: fs' =>
        match fs' with
        | [] =>
          have hser : serFields [(k, v)] =
              dquote :: (escapeStr k ++ dquote :: ':' :: ' ' :: serVal v) := by
            simp [serFields, serStr]
          rw [hser] at hin hlen
          simp only [List.cons_append, List.append_assoc, List.cons_append,
            List.nil_append] at hin
          rw [parseFields, hin]
          have hstr : parseStrBody (escapeStr k ++ dquote ::
              (':' :: ' ' :: (serVal v ++ rbrace :: rest))) =
              some (k, ':' :: ' ' :: (serVal v ++ rbrace :: rest)) :=
            parseStrBody_escape k _
          have hval : parseVal fuel (' ' :: (serVal v ++ rbrace :: rest)) =
              some (v, rbrace :: rest) := by
            apply ih1 v _ (rbrace :: rest)
            · simp only [List.length_cons, List.length_append] at hlen ⊢
              omega
            · simp +decide [digitLead]
            · rw [skipWs_sp, skipWs_serVal]
          have hsk1 : skipWs (':' :: ' ' :: (serVal v ++ rbrace :: rest)) =
              ':' :: ' ' :: (serVal v ++ rbrace :: rest) :=
            skipWs_not_ws _ _ (by decide)
          have hsk2 : skipWs (rbrace :: rest) = rbrace :: rest :=
            skipWs_not_ws _ _ (by decide)
          simp +decide [hstr, hval, hsk1, hsk2]
        | f1 :: fs'' =>
          have hser : serFields ((k, v) :: f1 :: fs'') =
              dquote :: (escapeStr k ++ dquote :: ':' :: ' ' ::
                (serVal v ++ ',' :: ' ' :: serFields (f1 :: fs''))) := by
            simp [serFields, serStr]
          rw [hser] at hin hlen
          simp only [List.cons_append, List.append_assoc, List.cons_append,
            List.nil_append] at hin
          rw [parseFields, hin]
          have hstr : parseStrBody (escapeStr k ++ dquote ::
              (':' :: ' ' :: (serVal v ++ ',' :: ' ' ::
                (serFields (f1 :: fs'') ++ rbrace :: rest)))) =
              some (k, ':' :: ' ' :: (serVal v ++ ',' :: ' ' ::
                (serFields (f1 :: fs'') ++ rbrace :: rest))) :=
            parseStrBody_escape k _
          have hval : parseVal fuel (' ' :: (serVal v ++ ',' :: ' ' ::
              (serFields (f1 :: fs'') ++ rbrace :: rest))) =
              some (v, ',' :: ' ' :: (serFields (f1 :: fs'') ++ rbrace :: rest)) := by
            apply ih1 v _ _
            · simp only [List.length_cons, List.length_append] at hlen ⊢
              omega
            · simp +decide [digitLead]
            · rw [skipWs_sp, skipWs_serVal]
          have hrec : parseFields fuel (' ' :: (serFields (f1 :: fs'') ++
              rbrace :: rest)) = some (f1 :: fs'', rest) := by
            apply ih2 (f1 :: fs'') _ rest (by simp)
            · simp only [List.length_cons, List.length_append] at hlen ⊢
              omega
            · rw [skipWs_sp, skipWs_serFields _ (by simp)]
          have hsk1 : skipWs (':' :: ' ' :: (serVal v ++ ',' :: ' ' ::
              (serFields (f1 :: fs'') ++ rbrace :: rest))) =
              ':' :: ' ' :: (serVal v ++ ',' :: ' ' ::
              (serFields (f1 :: fs'') ++ rbrace :: rest)) :=
            skipWs_not_ws _ _ (by decide)
          have hsk2 : skipWs (',' :: ' ' :: (serFields (f1 :: fs'') ++ rbrace :: rest)) =
              ',' :: ' ' :: (serFields (f1 :: fs'') ++ rbrace :: rest) :=
            skipWs_not_ws _ _ (by decide)
          simp +decide [hstr, hval, hrec, hsk1, hsk2]
    · intro xs input rest hne hlen hin
      match xs with
      | v0 :: xs' =>
        match xs' with
        | [] =>
          have hser : serItems [v0] = serVal v0 := rfl
          rw [hser] at hin hlen
          rw [parseItems]
          have hval : parseVal fuel input = some (v0, ']' :: rest) := by
            apply ih1 v0 _ _ (by omega) (by simp +decide [digitLead]) hin
          have hsk : skipWs (']' :: rest) = ']' :: rest := skipWs_not_ws _ _ (by decide)
          simp +decide [hval, hsk]
        | w :: ws =>
          have hser : serItems (v0 :: w :: ws) =
              serVal v0 ++ ',' :: ' ' :: serItems (w :: ws) := rfl
          rw [hser] at hin hlen
          simp only [List.append_assoc, List.cons_append] at hin
          rw [parseItems]
          have hval : parseVal fuel input =
              some (v0, ',' :: ' ' :: (serItems (w :: ws) ++ ']' :: rest)) := by
            apply ih1 v0 _ _
            · simp only [List.length_append, List.length_cons] at hlen ⊢
              omega
            · simp +decide [digitLead]
            · exact hin
          have hrec : parseItems fuel (' ' :: (serItems (w :: ws) ++ ']' :: rest)) =
              some (w :: ws, rest) := by
            apply ih3 (w :: ws) _ rest (by simp)
            · simp only [List.length_append, List.length_cons] at hlen ⊢
              omega
            · rw [skipWs_sp]
              obtain ⟨c1, t1, hc1, hw1, _, _, _⟩ := serVal_head w
              have : ∃ u, serItems (w :: ws) = c1 :: u := by
                match ws with
                | [] => exact ⟨t1, by simp [serItems, hc1]⟩
                | x :: xs2 => exact ⟨t1 ++ ',' :: ' ' :: serItems (x :: xs2), by
                    simp [serItems, hc1]⟩
              obtain ⟨u, hu⟩ := this
              rw [hu, List.cons_append, skipWs_not_ws _ _ hw1]
          have hsk : skipWs (',' :: ' ' :: (serItems (w :: ws) ++ ']' :: rest)) =
              ',' :: ' ' :: (serItems (w :: ws) ++ ']' :: rest) :=
            skipWs_not_ws _ _ (by decide)
          simp +decide [hval, hrec, hsk]

theorem lstrip_cons (c : Char) (l : List Char) (h : isWs c = false) :
    lstrip (c :: l) = c :: l := by
  simp [lstrip, List.dropWhile, h]

theorem rstrip_append_last (l : List Char) (c : Char) (h : isWs c = false) :
    rstrip (l ++ [c]) = l ++ [c] := by
  simp [rstrip, List.dropWhile, h]

/-- Parsing the full serialisation of any value gives that value back. -/
theorem loads_serVal (v : JValue) : loads (serVal v) = some v := by
  have h1 : parseVal ((serVal v).length + 1) (serVal v) = some (v, []) := by
    apply (parse_ser ((serVal v).length + 1)).1 v (serVal v) [] (by omega) (by decide)
    have := skipWs_serVal v []
    simpa using this
  unfold loads
  rw [h1]
  rfl

/-- The serialiser is injective (a consequence of the round trip). -/
theorem serVal_inj {a b : JValue} (h : serVal a = serVal b) : a = b := by
  have ha := loads_serVal a
  have hb := loads_serVal b
  rw [h, hb] at ha
  exact (Option.some.injEq _ _ ▸ ha).symm

/-- Equality of JSON values is decidable by comparing serialisations. -/
instance : DecidableEq JValue := fun a b =>
  if h : serVal a = serVal b then .isTrue (serVal_inj h)
  else .isFalse (fun he => h (he ▸ rfl))

instance {α β : Type} [DecidableEq α] [DecidableEq β] : DecidableEq (Except α β) :=
  fun x y =>
  match x, y with
  | .error a, .error b =>
    if h : a = b then .isTrue (by rw [h]) else .isFalse (by
      intro hx
      cases hx
      exact h rfl)
  | .ok a, .ok b =>
    if h : a = b then .isTrue (by rw [h]) else .isFalse (by
      intro hx
      cases hx
      exact h rfl)
  | .error _, .ok _ => .isFalse (by intro hx; cases hx)
  | .ok _, .error _ => .isFalse (by intro hx; cases hx)

/-! ## Response Normalization (AstrologerAgent._generate_script, lines 214-216):
clean_json = raw_content.replace("```json", "").replace("```", "").strip();
json.loads(clean_json). -/

/-- Embedding of the markdown-fence cleanup applied to each raw response. -/
def clean_json (raw : List Char) : List Char :=
  trimWs (replaceAll (cs "```") [] (replaceAll (cs "```json") [] raw))

/-- The full normalisation step: fence cleanup followed by json.loads. -/
def normalize_response (raw : List Char) : Option JValue := loads (clean_json raw)

theorem isPref_of_append {p q t : List Char} (h : isPref (p ++ q) t = true) :
    isPref p t = true := by
  induction p generalizing t with
  | nil => rfl
  | cons a as ih =>
    match t with
    | [] => simp [isPref] at h
    | b :: bs =>
      simp only [List.cons_append, isPref, Bool.and_eq_true] at h ⊢
      exact ⟨h.1, ih h.2⟩

theorem hasSubstr_of_append {p q s : List Char} (h : hasSubstr (p ++ q) s = true) :
    hasSubstr p s = true := by
  induction s with
  | nil =>
    simp only [hasSubstr] at h ⊢
    exact isPref_of_append h
  | cons c rest ih =>
    simp only [hasSubstr, Bool.or_eq_true] at h ⊢
    rcases h with h | h
    · exact Or.inl (isPref_of_append h)
    · exact Or.inr (ih h)

theorem replaceAll_of_no_sub (p r s : List Char) (h : hasSubstr p s = false) :
    replaceAll p r s = s := by
  induction s with
  | nil => rw [replaceAll_nil]
  | cons c rest ih =>
    simp only [hasSubstr, Bool.or_eq_false_iff] at h
    rw [replaceAll_cons, if_neg (by simp [h.1])]
    rw [ih h.2]

/-- On a serialised mapping with no fence marker in its text, the cleanup step
is the identity. -/
theorem clean_json_serObj (fs : List (List Char × JValue))
    (hfence : hasSubstr (cs "```") (serVal (.obj fs)) = false) :
    clean_json (serVal (.obj fs)) = serVal (.obj fs) := by
  have hjson : hasSubstr (cs "```json") (serVal (.obj fs)) = false := by
    by_contra hx
    rw [Bool.not_eq_false] at hx
    have : hasSubstr (cs "```") (serVal (.obj fs)) = true :=
      @hasSubstr_of_append (cs "```") (cs "json") _ hx
    rw [this] at hfence
    exact Bool.true_eq_false.mp hfence
  unfold clean_json
  rw [replaceAll_of_no_sub _ _ _ hjson, replaceAll_of_no_sub _ _ _ hfence]
  unfold trimWs
  have hshape : serVal (JValue.obj fs) = lbrace :: (serFields fs ++ [rbrace]) := rfl
  rw [hshape, lstrip_cons lbrace _ (by decide)]
  exact rstrip_append_last (lbrace :: serFields fs) rbrace (by decide)

/-- Claim C8 counterexample: the claim as stated fails, because the fence
cleanup uses str.replace, which deletes fence markers occurring inside string
values.  For x = a mapping whose single string leaf is the three-backtick
marker itself, normalize(serialize(x)) parses but returns the mapping with
that leaf emptied, not x. -/
theorem claim_C8_counterexample :
    normalize_response (serVal (.obj [(cs "a", .str (cs "```"))])) =
      some (.obj [(cs "a", .str [])]) ∧
    normalize_response (serVal (.obj [(cs "a", .str (cs "```"))])) ≠
      some (.obj [(cs "a", .str (cs "```"))]) := by
  exact ⟨by decide, by decide⟩

/-- Claim C8 (amended): for every mapping x whose serialised JSON text contains
no markdown fence marker, Response Normalization (strip the fence markers,
strip surrounding whitespace, json.loads) returns exactly x:
normalize(serialize(x)) = x. -/
theorem claim_C8_normalize_roundtrip (fs : List (List Char × JValue))
    (hfence : hasSubstr (cs "```") (serVal (.obj fs)) = false) :
    normalize_response (serVal (.obj fs)) = some (.obj fs) := by
  unfold normalize_response
  rw [clean_json_serObj fs hfence, loads_serVal]

/-- Witness for C8 at a concrete two-field mapping with string and number
leaves. -/
theorem claim_C8_normalize_roundtrip_witness :
    hasSubstr (cs "```") (serVal (.obj [(cs "a", .num 1), (cs "b", .str (cs "x"))])) =
      false ∧
    normalize_response (serVal (.obj [(cs "a", .num 1), (cs "b", .str (cs "x"))])) =
      some (.obj [(cs "a", .num 1), (cs "b", .str (cs "x"))]) :=
  ⟨by decide, claim_C8_normalize_roundtrip _ (by decide)⟩

/-! ## Provider Ranking (AstrologerAgent.get_best_free_models).  The catalog
query is modelled as an oracle outcome: either the request raised (network
error — any exception inside the try block lands in the except handler), or a
response with a status code and a parsed body of model entries. -/

/-- One entry of the catalog body: its id and the pricing fields
(pricing.get("prompt") / pricing.get("completion"), absent keys give none). -/
structure CatalogModel where
  id : List Char
  prompt_price : Option (List Char)
  completion_price : Option (List Char)
deriving DecidableEq

/-- The free-tier filter: both listed prices are exactly the string "0". -/
def is_free (m : CatalogModel) : Bool :=
  m.prompt_price = some (cs "0") ∧ m.completion_price = some (cs "0")

/-- Outcome of requests.get on the catalog endpoint. -/
inductive CatalogOutcome where
  | network_error : CatalogOutcome
  | response (status : Nat) (data : List CatalogModel) : CatalogOutcome

/-- The fixed hardcoded fallback list. -/
def default_models : List (List Char) :=
  [cs "google/gemini-2.0-flash-exp:free", cs "meta-llama/llama-3.3-70b-instruct:free"]

/-- The keyword scoring heuristics applied to one free model id. -/
def scoreModel (mid : List Char) : Int :=
  let ml := lower mid
  (if hasSubstr (cs "gemini") ml then 10 else 0) +
  (if hasSubstr (cs "llama-3") ml then 8 else 0) +
  (if hasSubstr (cs "deepseek") ml then 7 else 0) +
  (if hasSubstr (cs "phi-4") ml then 6 else 0) +
  (if hasSubstr (cs "flash") ml then 3 else 0) +
  (if hasSubstr (cs "exp") ml then 2 else 0) +
  (if hasSubstr (cs "70b") ml then 2 else 0) -
  (if hasSubstr (cs "nano") ml || hasSubstr (cs "1b") ml || hasSubstr (cs "3b") ml
   then 20 else 0)

/-- Embedding of get_best_free_models: fetch the catalog, keep ids whose
prompt and completion prices are both the string "0", score them, sort by
score descending (Python's stable sort with reverse=True), take the top 5,
and fall back to the fixed default list on any failure or empty result. -/
def get_best_free_models (o : CatalogOutcome) : List (List Char) :=
  match o with
  | .network_error => default_models
  | .response status data =>
    if status ≠ 200 then default_models
    else
      let free_models := (data.filter is_free).map (fun m => m.id)
      let scored_models := free_models.map (fun mid => (scoreModel mid, mid))
      let sorted := scored_models.mergeSort (fun a b => decide (b.1 ≤ a.1))
      let best_models := (sorted.take 5).map (fun x => x.2)
      if best_models = [] then default_models else best_models

/-- Claim C7: whenever the catalog query fails (network error or non-200
status) or yields zero qualifying free entries, get_best_free_models returns
exactly the fixed 2-element default list; being a total function of the
catalog outcome, it never raises to its caller. -/
theorem claim_C7_ranking_defaults (o : CatalogOutcome)
    (h : o = .network_error ∨
      (∃ st d, o = .response st d ∧ st ≠ 200) ∨
      (∃ d, o = .response 200 d ∧ d.filter is_free = [])) :
    get_best_free_models o = default_models := by
  rcases h with h | ⟨st, d, rfl, hst⟩ | ⟨d, rfl, hd⟩
  · rw [h]
    rfl
  · simp [get_best_free_models, hst]
  · simp [get_best_free_models, hd]

/-- Witness for C7 at each failure mode: a network error, a 500 status, and a
200 status whose only entry is not free. -/
theorem claim_C7_ranking_defaults_witness :
    get_best_free_models .network_error = default_models ∧
    get_best_free_models (.response 500 [⟨cs "m", some (cs "0"), some (cs "0")⟩]) =
      default_models ∧
    get_best_free_models (.response 200 [⟨cs "m", some (cs "1"), some (cs "0")⟩]) =
      default_models := by
  refine ⟨claim_C7_ranking_defaults _ (Or.inl rfl),
    claim_C7_ranking_defaults _ (Or.inr (Or.inl ⟨500, _, rfl, by decide⟩)),
    claim_C7_ranking_defaults _ (Or.inr (Or.inr ⟨_, rfl, by decide⟩))⟩

/-! ## Metadata post-processing (AstrologerAgent.generate_viral_metadata,
lines 497-525: list unwrapping, validation, the mandatory-hashtag title fix
and the categoryId default). -/

/-- Suffix test on char lists (model of str.endswith). -/
def isSuffixCh (p s : List Char) : Bool := isPref p.reverse s.reverse

/-- The title transformation of generate_viral_metadata (lines 510-519):
if "#shorts" is missing from the lowercased title, truncate a title longer
than 80 characters to 77 + "..." and append " #shorts #viral" after
right-stripping; otherwise append " #viral" when only "#viral" is missing. -/
def process_title (t : List Char) : List Char :=
  if hasSubstr (cs "#shorts") (lower t) = false then
    rstrip (if t.length > 80 then t.take 77 ++ cs "..." else t) ++ cs " #shorts #viral"
  else if hasSubstr (cs "#viral") (lower t) = false then
    rstrip t ++ cs " #viral"
  else t

def invalid_metadata_msg : List Char := cs "Invalid metadata generated."

def metadata_failed_msg (rashi : List Char) : List Char :=
  cs "Metadata generation failed (Quota). Stopping upload for " ++ rashi ++ cs "."

/-- Embedding of the tail of generate_viral_metadata, applied to the result
of _generate_script: unwrap a single-mapping list (raising on any other
list), require a mapping with a title key, fix the title, and default
categoryId to "24".  A non-string title raises (title.lower() on a non-string
is an uncaught AttributeError in the source). -/
def metadata_postprocess (rashi : List Char) (result : JValue) :
    Except (List Char) JValue :=
  let unwrapped : Except (List Char) JValue :=
    match result with
    | .arr ((.obj fs) :: _) => .ok (.obj fs)
    | .arr _ => .error (metadata_failed_msg rashi)
    | other => .ok other
  match unwrapped with
  | .error e => .error e
  | .ok r =>
    match r with
    | .obj fs =>
      if (jGet (.obj fs) (cs "title")).isSome = false then .error invalid_metadata_msg
      else
        match (jGet (.obj fs) (cs "title")).getD (.str []) with
        | .str t =>
          let r1 := jSet (.obj fs) (cs "title") (.str (process_title t))
          let r2 := if (jGet r1 (cs "categoryId")).isSome then r1
                    else jSet r1 (cs "categoryId") (.str (cs "24"))
          .ok r2
        | _ => .error (cs "AttributeError")
    | _ => .error invalid_metadata_msg

/-- The title field of a metadata mapping ([] when absent or non-string). -/
def titleOf (r : JValue) : List Char :=
  match jGet r (cs "title") with
  | some (.str t) => t
  | _ => []

/-- Projection of a successful post-processing result (null on error). -/
def postOk : Except (List Char) JValue → JValue
  | .ok r => r
  | .error _ => .null

/-- Surface check that an Except is a success. -/
def isOkE : Except (List Char) JValue → Bool
  | .ok _ => true
  | .error _ => false

theorem jGet_jSet_self (fs : List (List Char × JValue)) (k : List Char) (v : JValue) :
    jGet (jSet (.obj fs) k v) k = some v := by
  induction fs with
  | nil => simp [jSet, jSet.go, jGet, jGet.go]
  | cons f rest ih =>
    by_cases h : f.1 = k
    · simp [jSet, jSet.go, jGet, jGet.go, h]
    · simp only [jSet, jSet.go, h, if_neg, if_false, jGet, jGet.go] at ih ⊢
      exact ih

theorem jGet_jSet_ne (j : JValue) (k1 k2 : List Char) (v : JValue) (h : k1 ≠ k2) :
    jGet (jSet j k1 v) k2 = jGet j k2 := by
  match j with
  | .null | .bool _ | .num _ | .str _ | .arr _ => rfl
  | .obj fs =>
    induction fs with
    | nil => simp [jSet, jSet.go, jGet, jGet.go, h]
    | cons f rest ih =>
      by_cases hf : f.1 = k1
      · simp [jSet, jSet.go, jGet, jGet.go, hf, h]
      · by_cases hf2 : f.1 = k2
        · simp [jSet, jSet.go, jGet, jGet.go, hf, hf2, Ne.symm h]
        · simp only [jSet, jSet.go, hf, if_neg, if_false, jGet, jGet.go, hf2] at ih ⊢
          exact ih

theorem isPref_self_append (p q : List Char) : isPref p (p ++ q) = true := by
  induction p with
  | nil => rfl
  | cons c rest ih => simp [isPref, ih]

theorem hasSubstr_append_right (p s1 s2 : List Char) (h : hasSubstr p s2 = true) :
    hasSubstr p (s1 ++ s2) = true := by
  induction s1 with
  | nil => simpa using h
  | cons c rest ih => simp [hasSubstr, ih]

theorem isSuffixCh_append (p x : List Char) : isSuffixCh p (x ++ p) = true := by
  unfold isSuffixCh
  rw [List.reverse_append]
  exact isPref_self_append _ _

theorem rstrip_length_le (s : List Char) : (rstrip s).length ≤ s.length := by
  unfold rstrip
  simp only [List.length_reverse]
  calc (s.reverse.dropWhile isWs).length ≤ s.reverse.length :=
        (List.dropWhile_sublist isWs).length_le
    _ = s.length := List.length_reverse s

/-- Claim C5 counterexample: for an input title of 75 characters without the
marker, the post-processed title has length 90, exceeding the configured
maximum of 80 — the truncation runs before appending " #shorts #viral"
(15 characters), so the appended tags can push the total past 80. -/
theorem claim_C5_counterexample :
    hasSubstr (cs "#shorts") (lower (List.replicate 75 'a')) = false ∧
    (List.replicate 75 'a').length = 75 ∧
    (titleOf (postOk (metadata_postprocess (cs "Mesh")
      (.obj [(cs "title", .str (List.replicate 75 'a'))])))).length = 90 ∧
    ¬ (titleOf (postOk (metadata_postprocess (cs "Mesh")
      (.obj [(cs "title", .str (List.replicate 75 'a'))])))).length ≤ 80 := by
  refine ⟨by decide, by decide, by decide, by decide⟩

/-- Claim C5 (amended): for every metadata result whose title field is a
string lacking "#shorts", post-processing succeeds and rewrites the title to
process_title t, which ends with " #shorts #viral" (hence ends with "#viral"
and contains "#shorts"); the title is truncated to at most 80 characters
before the 15-character tag suffix is appended, so the final length is at
most 95 (not 80 as originally claimed). -/
theorem claim_C5_title_postprocess (rashi : List Char) (fs : List (List Char × JValue))
    (t : List Char)
    (htitle : jGet (.obj fs) (cs "title") = some (.str t))
    (hnoshorts : hasSubstr (cs "#shorts") (lower t) = false) :
    isOkE (metadata_postprocess rashi (.obj fs)) = true ∧
    titleOf (postOk (metadata_postprocess rashi (.obj fs))) = process_title t ∧
    isSuffixCh (cs " #shorts #viral") (process_title t) = true ∧
    isSuffixCh (cs "#viral") (process_title t) = true ∧
    hasSubstr (cs "#shorts") (process_title t) = true ∧
    (process_title t).length ≤ 95 := by
  have hget : (jGet (.obj fs) (cs "title")).getD (.str []) = .str t := by
    rw [htitle]
    rfl
  have hsome : (jGet (.obj fs) (cs "title")).isSome = true := by
    rw [htitle]
    rfl
  have hrun : metadata_postprocess rashi (.obj fs) =
      .ok (let r1 := jSet (.obj fs) (cs "title") (.str (process_title t))
           if (jGet r1 (cs "categoryId")).isSome then r1
           else jSet r1 (cs "categoryId") (.str (cs "24"))) := by
    unfold metadata_postprocess
    simp only [hsome, hget, Bool.true_eq_false, if_false]
  have hptform : process_title t =
      rstrip (if t.length > 80 then t.take 77 ++ cs "..." else t) ++ cs " #shorts #viral" := by
    unfold process_title
    rw [if_pos hnoshorts]
  refine ⟨?_, ?_, ?_, ?_, ?_, ?_⟩
  · rw [hrun]
    rfl
  · rw [hrun]
    show titleOf (let r1 := jSet (.obj fs) (cs "title") (.str (process_title t))
           if (jGet r1 (cs "categoryId")).isSome then r1
           else jSet r1 (cs "categoryId") (.str (cs "24"))) = process_title t
    by_cases hc : (jGet (jSet (.obj fs) (cs "title") (.str (process_title t)))
        (cs "categoryId")).isSome
    · simp only [hc, if_pos, titleOf, jGet_jSet_self]
    · simp only [hc, if_neg, if_false, titleOf]
      simp only [Bool.false_eq_true, if_false]
      rw [jGet_jSet_ne _ (cs "categoryId") (cs "title") _ (by decide), jGet_jSet_self]
  · rw [hptform]
    exact isSuffixCh_append _ _
  · rw [hptform]
    have hsplit : cs " #shorts #viral" = cs " #shorts " ++ cs "#viral" := by decide
    rw [hsplit, ← List.append_assoc]
    exact isSuffixCh_append _ _
  · rw [hptform]
    exact hasSubstr_append_right _ _ _ (by decide)
  · rw [hptform]
    rw [List.length_append]
    have h15 : (cs " #shorts #viral").length = 15 := by decide
    rw [h15]
    have hbound : (rstrip (if t.length > 80 then t.take 77 ++ cs "..." else t)).length ≤ 80 := by
      calc (rstrip (if t.length > 80 then t.take 77 ++ cs "..." else t)).length
          ≤ (if t.length > 80 then t.take 77 ++ cs "..." else t).length :=
            rstrip_length_le _
        _ ≤ 80 := by
            by_cases hl : t.length > 80
            · rw [if_pos hl]
              simp only [List.length_append, List.length_take]
              have : (cs "...").length = 3 := by decide
              omega
            · rw [if_neg hl]
              omega
    omega

/-- Witness for C5 (amended) at the 75-character title: the processed title
ends with the tags and has length 90 ≤ 95. -/
theorem claim_C5_title_postprocess_witness :
    isOkE (metadata_postprocess (cs "Mesh")
      (.obj [(cs "title", .str (List.replicate 75 'a'))])) = true ∧
    isSuffixCh (cs "#viral")
      (process_title (List.replicate 75 'a')) = true ∧
    (process_title (List.replicate 75 'a')).length ≤ 95 := by
  have h := claim_C5_title_postprocess (cs "Mesh") [(cs "title", .str (List.replicate 75 'a'))]
    (List.replicate 75 'a') (by decide) (by decide)
  exact ⟨h.1, h.2.2.2.1, h.2.2.2.2.2⟩

/-! ## Safe-Default Fallback (AstrologerAgent._get_mock_data).  The current
IST date read inside the Metadata_ branch (datetime.now formatted
"%d %B %Y") is modelled as the explicit input today_str. -/

/-- True exactly for Python dict results. -/
def isObjB : JValue → Bool
  | .obj _ => true
  | _ => false

/-- Embedding of _get_mock_data(rashi, period_type), with the formatted IST
date as explicit input. -/
def get_mock_data (rashi period_type today_str : List Char) : JValue :=
  if isPref (cs "Metadata_") period_type then
    let actual_period := replaceAll (cs "Metadata_") [] period_type
    let clean_rashi :=
      if hasSubstr (cs "(") rashi then trimWs (rashi.takeWhile (fun c => c ≠ '('))
      else rashi
    .obj [
      (cs "title", .str (clean_rashi ++ cs " Rashifal " ++ today_str ++
        cs " | आज का राशिफल 🔮 #shorts #viral")),
      (cs "description", .str (cs "🔮 " ++ rashi ++ cs " " ++ actual_period ++
        cs " Rashifal - " ++ today_str ++
        cs "\n\nआज का राशिफल देखें और जानें कि सितारे आपके लिए क्या कहते हैं!\n\n🌟 Topics Covered:\n- प्रेम और रिश्ते\n- करियर और व्यापार  \n- धन और वित्त\n- स्वास्थ्य\n\n#shorts #viral #rashifal #astrology #horoscope #jyotish #" ++
        lower clean_rashi ++ cs " #dailyhoroscope #trending")),
      (cs "tags", .arr [
        .str (lower clean_rashi ++ cs " rashifal"),
        .str (cs "rashifal"), .str (cs "horoscope"), .str (cs "astrology"),
        .str (cs "shorts"), .str (cs "viral"), .str (cs "jyotish"),
        .str (cs "daily horoscope"), .str (cs "aaj ka rashifal"),
        .str (cs "zodiac"), .str (cs "trending")]),
      (cs "categoryId", .str (cs "24"))]
  else if period_type = cs "Daily" then
    .obj [
      (cs "hook", .str (rashi ++
        cs " वालों, आज किस्मत का सितारा चमकेगा या बादलों में छिपेगा? " ++ rashi ++
        cs " आज का राशिफल!")),
      (cs "intro", .str (cs "आज चंद्रमा की स्थिति आपके लिए नए अवसर ला रही है। ग्रहीय गोचर आपके पक्ष में संकेत दे रहे हैं।")),
      (cs "love", .str (cs "प्रेम संबंधों में आज मिठास बनी रहेगी। पुराने मतभेद सुलझने के आसार हैं।")),
      (cs "career", .str (cs "कार्यक्षेत्र में आपको नई जिम्मेदारियां मिल सकती हैं। सहकर्मियों का पूरा सहयोग मिलेगा।")),
      (cs "money", .str (cs "आर्थिक स्थिति सामान्य रहेगी। फिजूलखर्ची से बचें और निवेश सोच-समझकर करें।")),
      (cs "health", .str (cs "सेहत का ध्यान रखें, खासकर बदलते मौसम में। योग और ध्यान से लाभ होगा।")),
      (cs "remedy", .str (cs "आज हनुमान चालीसा का पाठ करें और लाल वस्तु का दान करें।")),
      (cs "lucky_color", .str (cs "लाल (Red)")),
      (cs "lucky_number", .str (cs "9"))]
  else
    .obj [
      (cs "hook", .str (cs "Mock Data generated due to API Rate Limits.")),
      (cs "intro", .str (cs "Systems are currently offline, please check API quotas.")),
      (cs "love", .str (cs "Unavailable.")), (cs "career", .str (cs "Unavailable.")),
      (cs "money", .str (cs "Unavailable.")),
      (cs "health", .str (cs "Unavailable.")), (cs "remedy", .str (cs "Check logs.")),
      (cs "lucky_date", .str (cs "N/A"))]

/-- Claim C9: the Safe-Default Fallback is a pure, deterministic function of
the entity name, the task label and the date — two calls with identical
inputs produce identical (byte-identical once serialised) mappings — and on
every input it succeeds with a mapping (it is a total function performing no
network calls, so it never throws). -/
theorem claim_C9_mock_data_pure (rashi period_type d1 d2 : List Char)
    (h : d1 = d2) :
    get_mock_data rashi period_type d1 = get_mock_data rashi period_type d2 ∧
    serVal (get_mock_data rashi period_type d1) =
      serVal (get_mock_data rashi period_type d2) ∧
    isObjB (get_mock_data rashi period_type d1) = true := by
  subst h
  refine ⟨rfl, rfl, ?_⟩
  unfold get_mock_data isObjB
  split_ifs <;> rfl

/-- Witness for C9 at concrete inputs. -/
theorem claim_C9_mock_data_pure_witness :
    get_mock_data (cs "Mesh (Aries)") (cs "Metadata_Daily") (cs "01 January 2026") =
      get_mock_data (cs "Mesh (Aries)") (cs "Metadata_Daily") (cs "01 January 2026") ∧
    serVal (get_mock_data (cs "Mesh (Aries)") (cs "Metadata_Daily") (cs "01 January 2026")) =
      serVal (get_mock_data (cs "Mesh (Aries)") (cs "Metadata_Daily") (cs "01 January 2026")) ∧
    isObjB (get_mock_data (cs "Mesh (Aries)") (cs "Metadata_Daily") (cs "01 January 2026")) =
      true :=
  claim_C9_mock_data_pure (cs "Mesh (Aries)") (cs "Metadata_Daily")
    (cs "01 January 2026") (cs "01 January 2026") rfl

/-! ## Generation Orchestrator (AstrologerAgent._generate_script).  Each
chat.completions.create call is an external event; the oracle fixes, per
(key index, model position), the outcome of the JSON-mode call and of the
plain-text retry.  time.sleep(120) and logging have no observable effect. -/

/-- Oracle for the astrologer's external calls: the JSON-mode completion, the
plain-text retry, and Google AI generate_content (none = google_model is
None; some (.error e) = generate_content raised; some (.ok t) = raw text). -/
structure AOracle where
  jsonMode : Nat → Nat → Except (List Char) (List Char)
  plainMode : Nat → Nat → Except (List Char) (List Char)
  google : Option (Except (List Char) (List Char))

/-- Representative message of a json.loads failure (a json.JSONDecodeError
rendering; it contains neither "429" nor "rate limit", like the messages the
library produces for generated content). -/
def json_decode_error_msg : List Char := cs "Expecting value: line 1 column 1 (char 0)"

/-- Fence cleanup plus json.loads, with a parse failure carried as the raised
error string (caught by the per-candidate except handler). -/
def parse_or_error (raw : List Char) : Except (List Char) JValue :=
  match loads (clean_json raw) with
  | some j => .ok j
  | none => .error json_decode_error_msg

/-- One full candidate attempt (lines 187-216): try JSON mode; if it raises
with "400" in the message, retry once in plain-text mode; clean and parse the
raw content of whichever call succeeded. -/
def attempt_outcome (o : AOracle) (k i : Nat) : Except (List Char) JValue :=
  match o.jsonMode k i with
  | .ok raw => parse_or_error raw
  | .error e =>
    if hasSubstr (cs "400") e then
      match o.plainMode k i with
      | .ok raw => parse_or_error raw
      | .error e2 => .error e2
    else .error e

/-- The rate-limit classification (line 224): "429" in the message or
"rate limit" in its lowercasing. -/
def is_rate_limit (e : List Char) : Bool :=
  hasSubstr (cs "429") e || hasSubstr (cs "rate limit") (lower e)

/-- Outcome of one pass of the inner for-loop over the ranked models. -/
inductive PassOut where
  | success (j : JValue)
  | rotated
  | exhausted (errors : List (List Char))

/-- One pass of the for-loop over the remaining models, starting at model
position i under key k, also returning the (key, model) attempt trace.
Rotation happens on a rate-limit error when tried_backup is still false and a
backup key exists (the _switch_to_backup_key condition); the Python break
then restarts the model loop. -/
def try_models (o : AOracle) (L k : Nat) (tb : Bool) :
    List (List Char) → Nat → List (List Char) → PassOut × List (Nat × Nat)
  | errors, _, [] => (.exhausted errors, [])
  | errors, i, m :: rest =>
    match attempt_outcome o k i with
    | .ok j => (.success j, [(k, i)])
    | .error e =>
      let errors2 := errors ++ [m ++ cs ": " ++ e]
      if is_rate_limit e = true ∧ tb = false ∧ (k : Int) < (L : Int) - 1 then
        (.rotated, [(k, i)])
      else
        let r := try_models o L k tb errors2 (i + 1) rest
        (r.1, (k, i) :: r.2)

/-- Result of the while-True loop. -/
inductive LoopRes where
  | success (j : JValue)
  | exhausted (errors : List (List Char))

/-- The while-True loop around the candidate pass, fuel-indexed (the fuel is
an artefact of the embedding: the theorems show 2 always suffices, because
tried_backup permits at most one rotation).  On rotation the loop restarts
from the first model with the new key, tried_backup set, and errors reset to
[]. -/
def script_loop (o : AOracle) (models : List (List Char)) (L : Nat) :
    Nat → Nat → Bool → List (List Char) →
    Option (LoopRes × Nat × List (Nat × Nat))
  | 0, _, _, _ => none
  | fuel + 1, k, tb, errors =>
    match try_models o L k tb errors 0 models with
    | (.success j, tr) => some (.success j, k, tr)
    | (.exhausted errs2, tr) => some (.exhausted errs2, k, tr)
    | (.rotated, tr) =>
      match script_loop o models L fuel (k + 1) true [] with
      | none => none
      | some (res, k2, tr2) => some (res, k2, tr ++ tr2)

/-- Embedding of the fenced-JSON extraction used by _generate_with_google_ai
(split on the fence markers rather than replace). -/
def extract_fenced (text : List Char) : List Char :=
  if hasSubstr (cs "```json") text then
    (splitOnSub (cs "```") ((splitOnSub (cs "```json") text).getD 1 [])).getD 0 []
  else if hasSubstr (cs "```") text then
    (splitOnSub (cs "```") ((splitOnSub (cs "```") text).getD 1 [])).getD 0 []
  else text

/-- Embedding of AstrologerAgent._generate_with_google_ai: None when no
google model is configured; on an exception from generate_content or a parse
failure the except handler returns None; otherwise the parsed JSON. -/
def generate_with_google_ai (g : Option (Except (List Char) (List Char))) :
    Option JValue :=
  match g with
  | none => none
  | some (.error _) => none
  | some (.ok text) => loads (trimWs (extract_fenced text))

/-- Observable outcome of one _generate_script call: the returned mapping or
the raised message, the key index afterwards, and the attempt trace. -/
structure GenOutcome where
  result : Except (List Char) JValue
  final_key_index : Nat
  trace : List (Nat × Nat)

/-- The hard-fail message of line 243. -/
def exhaust_msg (rashi : List Char) : List Char :=
  cs "❌ API Quota Exceeded for ALL keys. Cannot generate valid content for " ++
  rashi ++ cs "."

/-- Python truthiness of the google helper's optional result. -/
def py_truthy_opt : Option JValue → Bool
  | none => false
  | some j => py_truthy j

/-- _generate_script at a given loop fuel: run the candidate loop from the
current key with tried_backup false and no errors; on exhaustion try the
Google fallback (kept only if truthy, line 239) and otherwise raise the
hard-fail exception — the commented-out mock-data return is dead code. -/
def generate_script_fuel (fuel : Nat) (o : AOracle) (st : KeyState)
    (models : List (List Char)) (rashi : List Char) : Option GenOutcome :=
  match script_loop o models st.api_keys.length fuel st.current_key_index false [] with
  | none => none
  | some (.success j, k, tr) => some ⟨.ok j, k, tr⟩
  | some (.exhausted _, k, tr) =>
    match generate_with_google_ai o.google with
    | some j =>
      if py_truthy j then some ⟨.ok j, k, tr⟩
      else some ⟨.error (exhaust_msg rashi), k, tr⟩
    | none => some ⟨.error (exhaust_msg rashi), k, tr⟩

/-- _generate_script itself (fuel 2 is exact, per claim C1). -/
def generate_script (o : AOracle) (st : KeyState) (models : List (List Char))
    (rashi : List Char) : Option GenOutcome :=
  generate_script_fuel 2 o st models rashi

/-- Length of the attempt trace of an outcome. -/
def traceLenOf : Option GenOutcome → Nat
  | none => 0
  | some r => r.trace.length

theorem try_models_nil (o : AOracle) (L k : Nat) (tb : Bool)
    (errors : List (List Char)) (i : Nat) :
    try_models o L k tb errors i [] = (.exhausted errors, []) := rfl

theorem try_models_cons_ok (o : AOracle) (L k : Nat) (tb : Bool)
    (errors : List (List Char)) (i : Nat) (m : List Char) (rest : List (List Char))
    (j : JValue) (hq : attempt_outcome o k i = .ok j) :
    try_models o L k tb errors i (m :: rest) = (.success j, [(k, i)]) := by
  rw [try_models, hq]

theorem try_models_cons_err (o : AOracle) (L k : Nat) (tb : Bool)
    (errors : List (List Char)) (i : Nat) (m : List Char) (rest : List (List Char))
    (e : List Char) (hq : attempt_outcome o k i = .error e) :
    try_models o L k tb errors i (m :: rest) =
      if is_rate_limit e = true ∧ tb = false ∧ (k : Int) < (L : Int) - 1 then
        (.rotated, [(k, i)])
      else
        ((try_models o L k tb (errors ++ [m ++ cs ": " ++ e]) (i + 1) rest).1,
         (k, i) :: (try_models o L k tb (errors ++ [m ++ cs ": " ++ e]) (i + 1) rest).2) := by
  rw [try_models, hq]

/-- Once tried_backup is set, a pass can never rotate again. -/
theorem try_models_true_no_rotate (o : AOracle) (L k : Nat) :
    ∀ (ms : List (List Char)) (errors : List (List Char)) (i : Nat),
      (try_models o L k true errors i ms).1 ≠ PassOut.rotated := by
  intro ms
  induction ms with
  | nil =>
    intro errors i h
    rw [try_models_nil] at h
    exact absurd h (by simp)
  | cons m rest ih =>
    intro errors i h
    rcases hq : attempt_outcome o k i with e | j
    · rw [try_models_cons_err o L k true errors i m rest e hq,
        if_neg (by simp)] at h
      exact ih _ (i + 1) h
    · rw [try_models_cons_ok o L k true errors i m rest j hq] at h
      exact absurd h (by simp)

/-- Each pass makes at most one attempt per remaining model. -/
theorem try_models_trace_le (o : AOracle) (L k : Nat) (tb : Bool) :
    ∀ (ms : List (List Char)) (errors : List (List Char)) (i : Nat),
      (try_models o L k tb errors i ms).2.length ≤ ms.length := by
  intro ms
  induction ms with
  | nil =>
    intro errors i
    rw [try_models_nil]
    simp
  | cons m rest ih =>
    intro errors i
    rcases hq : attempt_outcome o k i with e | j
    · rw [try_models_cons_err o L k tb errors i m rest e hq]
      by_cases hc : is_rate_limit e = true ∧ tb = false ∧ (k : Int) < (L : Int) - 1
      · rw [if_pos hc]
        simp
      · rw [if_neg hc]
        have := ih (errors ++ [m ++ cs ": " ++ e]) (i + 1)
        simp only [List.length_cons]
        omega
    · rw [try_models_cons_ok o L k tb errors i m rest j hq]
      simp

theorem script_loop_succ_success (o : AOracle) (models : List (List Char))
    (L fuel k : Nat) (tb : Bool) (errors : List (List Char)) (j : JValue)
    (tr : List (Nat × Nat))
    (hq : try_models o L k tb errors 0 models = (.success j, tr)) :
    script_loop o models L (fuel + 1) k tb errors = some (.success j, k, tr) := by
  rw [script_loop, hq]

theorem script_loop_succ_exhausted (o : AOracle) (models : List (List Char))
    (L fuel k : Nat) (tb : Bool) (errors : List (List Char))
    (errs2 : List (List Char)) (tr : List (Nat × Nat))
    (hq : try_models o L k tb errors 0 models = (.exhausted errs2, tr)) :
    script_loop o models L (fuel + 1) k tb errors = some (.exhausted errs2, k, tr) := by
  rw [script_loop, hq]

theorem script_loop_succ_rotated (o : AOracle) (models : List (List Char))
    (L fuel k : Nat) (tb : Bool) (errors : List (List Char)) (tr : List (Nat × Nat))
    (hq : try_models o L k tb errors 0 models = (.rotated, tr)) :
    script_loop o models L (fuel + 1) k tb errors =
      match script_loop o models L fuel (k + 1) true [] with
      | none => none
      | some (res, k2, tr2) => some (res, k2, tr ++ tr2) := by
  rw [script_loop, hq]

/-- With tried_backup set, the loop result does not depend on the remaining
fuel (beyond one unit) and is always defined. -/
theorem script_loop_true_stable (o : AOracle) (models : List (List Char)) (L : Nat)
    (fuel k : Nat) (errors : List (List Char)) :
    script_loop o models L (fuel + 1) k true errors =
      script_loop o models L 1 k true errors ∧
    (script_loop o models L 1 k true errors).isSome = true := by
  rcases hq : try_models o L k true errors 0 models with ⟨out, tr⟩
  cases out with
  | success j =>
    rw [script_loop_succ_success o models L fuel k true errors j tr hq,
      script_loop_succ_success o models L 0 k true errors j tr hq]
    exact ⟨rfl, rfl⟩
  | exhausted errs2 =>
    rw [script_loop_succ_exhausted o models L fuel k true errors errs2 tr hq,
      script_loop_succ_exhausted o models L 0 k true errors errs2 tr hq]
    exact ⟨rfl, rfl⟩
  | rotated =>
    exact absurd (by rw [hq]) (try_models_true_no_rotate o L k models errors 0)

/-- With tried_backup false, fuel 2 is always enough, the result is defined,
and the attempt trace is bounded by two passes over the models. -/
theorem script_loop_false_stable (o : AOracle) (models : List (List Char)) (L : Nat)
    (fuel k : Nat) (errors : List (List Char)) :
    script_loop o models L (fuel + 2) k false errors =
      script_loop o models L 2 k false errors ∧
    (script_loop o models L 2 k false errors).isSome = true ∧
    (∀ res k2 tr, script_loop o models L 2 k false errors = some (res, k2, tr) →
      tr.length ≤ 2 * models.length) := by
  rcases hq : try_models o L k false errors 0 models with ⟨out, tr⟩
  have htr : tr.length ≤ models.length := by
    have := try_models_trace_le o L k false models errors 0
    rw [hq] at this
    exact this
  cases out with
  | success j =>
    rw [script_loop_succ_success o models L (fuel + 1) k false errors j tr hq,
      script_loop_succ_success o models L 1 k false errors j tr hq]
    refine ⟨rfl, rfl, ?_⟩
    intro res k2 tr2 h
    simp only [Option.some.injEq, Prod.mk.injEq] at h
    obtain ⟨_, _, h6⟩ := h
    subst h6
    omega
  | exhausted errs2 =>
    rw [script_loop_succ_exhausted o models L (fuel + 1) k false errors errs2 tr hq,
      script_loop_succ_exhausted o models L 1 k false errors errs2 tr hq]
    refine ⟨rfl, rfl, ?_⟩
    intro res k2 tr2 h
    simp only [Option.some.injEq, Prod.mk.injEq] at h
    obtain ⟨_, _, h6⟩ := h
    subst h6
    omega
  | rotated =>
    obtain ⟨hstab, hsome⟩ := script_loop_true_stable o models L fuel (k + 1) []
    obtain ⟨hstab1, _⟩ := script_loop_true_stable o models L 0 (k + 1) []
    rw [script_loop_succ_rotated o models L (fuel + 1) k false errors tr hq,
      script_loop_succ_rotated o models L 1 k false errors tr hq,
      hstab, hstab1]
    rcases hs : script_loop o models L 1 (k + 1) true [] with _ | ⟨res, k2, tr2⟩
    · rw [hs] at hsome
      exact absurd hsome (by simp)
    · have htr2 : tr2.length ≤ models.length := by
        rcases hq2 : try_models o L (k + 1) true [] 0 models with ⟨out2, trx⟩
        have hx := try_models_trace_le o L (k + 1) true models [] 0
        rw [hq2] at hx
        cases out2 with
        | success j2 =>
          rw [script_loop_succ_success o models L 0 (k + 1) true [] j2 trx hq2] at hs
          simp only [Option.some.injEq, Prod.mk.injEq] at hs
          obtain ⟨_, _, h6⟩ := hs
          subst h6
          exact hx
        | exhausted e2 =>
          rw [script_loop_succ_exhausted o models L 0 (k + 1) true [] e2 trx hq2] at hs
          simp only [Option.some.injEq, Prod.mk.injEq] at hs
          obtain ⟨_, _, h6⟩ := hs
          subst h6
          exact hx
        | rotated =>
          exact absurd (by rw [hq2]) (try_models_true_no_rotate o L (k + 1) models [] 0)
      refine ⟨rfl, rfl, ?_⟩
      intro res3 k3 tr3 h
      simp only [Option.some.injEq, Prod.mk.injEq] at h
      obtain ⟨_, _, h6⟩ := h
      subst h6
      simp only [List.length_append]
      omega

/-- Claim C1: for every oracle behaviour, _generate_script performs a bounded
number of backend attempts and always terminates: the while-True loop needs
at most two passes (it restarts at most once, after the single permitted
credential rotation), the result is always defined (a mapping or a raised
error), and at most 2·|models| candidate attempts are made. -/
theorem claim_C1_generate_script_terminates (o : AOracle) (st : KeyState)
    (models : List (List Char)) (rashi : List Char) (fuel : Nat) (h : 2 ≤ fuel) :
    generate_script_fuel fuel o st models rashi =
      generate_script_fuel 2 o st models rashi ∧
    (generate_script_fuel 2 o st models rashi).isSome = true ∧
    traceLenOf (generate_script_fuel 2 o st models rashi) ≤ 2 * models.length := by
  obtain ⟨g, rfl⟩ : ∃ g, fuel = g + 2 := ⟨fuel - 2, by omega⟩
  obtain ⟨hstab, hsome, htr⟩ :=
    script_loop_false_stable o models st.api_keys.length g st.current_key_index []
  obtain ⟨hstab0, _, _⟩ :=
    script_loop_false_stable o models st.api_keys.length 0 st.current_key_index []
  unfold generate_script_fuel
  rw [hstab, hstab0]
  rcases hs : script_loop o models st.api_keys.length 2 st.current_key_index false []
    with _ | ⟨res, k2, tr2⟩
  · rw [hs] at hsome
    simp at hsome
  · have htr2 := htr res k2 tr2 hs
    cases res with
    | success j =>
      refine ⟨rfl, ?_, ?_⟩
      · rfl
      · simpa [traceLenOf] using htr2
    | exhausted errs =>
      refine ⟨rfl, ?_, ?_⟩
      · rcases hg : generate_with_google_ai o.google with _ | j
        · simp [hg]
        · by_cases hpt : py_truthy j = true <;> simp [hg, hpt]
      · rcases hg : generate_with_google_ai o.google with _ | j
        · simp [traceLenOf, hg, htr2]
        · by_cases hpt : py_truthy j = true <;> simp [traceLenOf, hg, hpt, htr2]

/-- Witness for C1 at fuel 5 and a concrete always-failing oracle. -/
theorem claim_C1_generate_script_terminates_witness :
    generate_script_fuel 5
        ⟨fun _ _ => .error (cs "boom"), fun _ _ => .error (cs "boom"), none⟩
        ⟨[cs "k1"], 0⟩ [cs "m1"] (cs "Mesh") =
      generate_script_fuel 2
        ⟨fun _ _ => .error (cs "boom"), fun _ _ => .error (cs "boom"), none⟩
        ⟨[cs "k1"], 0⟩ [cs "m1"] (cs "Mesh") ∧
    (generate_script_fuel 2
        ⟨fun _ _ => .error (cs "boom"), fun _ _ => .error (cs "boom"), none⟩
        ⟨[cs "k1"], 0⟩ [cs "m1"] (cs "Mesh")).isSome = true ∧
    traceLenOf (generate_script_fuel 2
        ⟨fun _ _ => .error (cs "boom"), fun _ _ => .error (cs "boom"), none⟩
        ⟨[cs "k1"], 0⟩ [cs "m1"] (cs "Mesh")) ≤ 2 * ([cs "m1"]).length :=
  claim_C1_generate_script_terminates _ _ _ _ 5 (by decide)

/-- Claim C2: (a) a candidate attempt failing with a rate-limit error while
tried_backup is false and a backup credential exists makes the pass stop and
rotate; (b) the loop then restarts from the first ranked model under key
k+1 with tried_backup set and the error list cleared to []; (c) end to end,
with two credentials, the first attempt under credential #1 rate-limited and
the first attempt under credential #2 succeeding with j, _generate_script
returns j and the key index afterwards is 1. -/
theorem claim_C2_rate_limit_rotation :
    (∀ (o : AOracle) (L k i : Nat) (errors : List (List Char)) (m : List Char)
       (ms : List (List Char)) (e : List Char),
       attempt_outcome o k i = .error e → is_rate_limit e = true →
       (k : Int) < (L : Int) - 1 →
       try_models o L k false errors i (m :: ms) = (.rotated, [(k, i)])) ∧
    (∀ (o : AOracle) (models : List (List Char)) (L fuel k : Nat)
       (errors : List (List Char)) (tr : List (Nat × Nat)) (res : LoopRes)
       (k2 : Nat) (tr2 : List (Nat × Nat)),
       try_models o L k false errors 0 models = (.rotated, tr) →
       script_loop o models L fuel (k + 1) true [] = some (res, k2, tr2) →
       script_loop o models L (fuel + 1) k false errors = some (res, k2, tr ++ tr2)) ∧
    (∀ (o : AOracle) (keys : List (List Char)) (m : List Char)
       (ms : List (List Char)) (rashi e0 : List Char) (j : JValue),
       keys.length = 2 →
       attempt_outcome o 0 0 = .error e0 → is_rate_limit e0 = true →
       attempt_outcome o 1 0 = .ok j →
       generate_script o ⟨keys, 0⟩ (m :: ms) rashi =
         some ⟨.ok j, 1, [(0, 0), (1, 0)]⟩) := by
  refine ⟨?_, ?_, ?_⟩
  · intro o L k i errors m ms e herr hrl hk
    rw [try_models_cons_err o L k false errors i m ms e herr,
      if_pos ⟨hrl, rfl, hk⟩]
  · intro o models L fuel k errors tr res k2 tr2 htr hrec
    rw [script_loop_succ_rotated o models L fuel k false errors tr htr, hrec]
  · intro o keys m ms rashi e0 j hL herr hrl hok
    have h1 : try_models o keys.length 0 false [] 0 (m :: ms) = (.rotated, [(0, 0)]) := by
      rw [try_models_cons_err o keys.length 0 false [] 0 m ms e0 herr,
        if_pos ⟨hrl, rfl, by omega⟩]
    have h2 : try_models o keys.length 1 true [] 0 (m :: ms) = (.success j, [(1, 0)]) :=
      try_models_cons_ok o keys.length 1 true [] 0 m ms j hok
    show generate_script_fuel 2 o ⟨keys, 0⟩ (m :: ms) rashi = _
    unfold generate_script_fuel
    rw [show (KeyState.mk keys 0).api_keys.length = keys.length from rfl,
      show (KeyState.mk keys 0).current_key_index = 0 from rfl]
    rw [script_loop_succ_rotated o (m :: ms) keys.length 1 0 false [] [(0, 0)] h1]
    rw [script_loop_succ_success o (m :: ms) keys.length 0 1 true [] j [(1, 0)] h2]
    rfl

/-- Witness for C2: concrete oracle in which credential #1 is rate-limited
and credential #2 parses a mapping, over one model and two keys.  The three
conjuncts of the claim are instantiated in order. -/
theorem claim_C2_rate_limit_rotation_witness :
    try_models
        ⟨fun k _ => if k = 0 then .error (cs "429 Too Many Requests")
                    else .ok (cs "\x7b\"hook\": \"x\"\x7d"),
         fun _ _ => .error (cs "unused"), none⟩
        2 0 false [] 0 [cs "m1"] = (.rotated, [(0, 0)]) ∧
    generate_script
        ⟨fun k _ => if k = 0 then .error (cs "429 Too Many Requests")
                    else .ok (cs "\x7b\"hook\": \"x\"\x7d"),
         fun _ _ => .error (cs "unused"), none⟩
        ⟨[cs "k1", cs "k2"], 0⟩ [cs "m1"] (cs "Mesh") =
      some ⟨.ok (.obj [(cs "hook", .str (cs "x"))]), 1, [(0, 0), (1, 0)]⟩ := by
  refine ⟨?_, ?_⟩
  · exact claim_C2_rate_limit_rotation.1 _ 2 0 0 [] (cs "m1") []
      (cs "429 Too Many Requests") (by decide) (by decide) (by decide)
  · exact claim_C2_rate_limit_rotation.2.2 _ [cs "k1", cs "k2"] (cs "m1") [] (cs "Mesh")
      (cs "429 Too Many Requests") (.obj [(cs "hook", .str (cs "x"))])
      (by decide) (by decide) (by decide) (by decide)

theorem range_map_shift (k i n : Nat) :
    (List.range (n + 1)).map (fun d => (k, i + d)) =
      (k, i) :: (List.range n).map (fun d => (k, (i + 1) + d)) := by
  rw [List.range_succ_eq_map, List.map_cons, List.map_map]
  refine congrArg₂ _ (by simp) ?_
  apply List.map_congr_left
  intro d _
  simp only [Function.comp_apply, Prod.mk.injEq, true_and]
  omega

/-- A pass in which every attempt fails with a non-rate-limit error visits
every remaining model once and ends exhausted. -/
theorem try_models_all_fail (o : AOracle) (L k : Nat) (tb : Bool) :
    ∀ (ms : List (List Char)) (i : Nat) (errors : List (List Char)),
      (∀ d, d < ms.length → ∃ e, attempt_outcome o k (i + d) = .error e ∧
        is_rate_limit e = false) →
      ∃ errs2, try_models o L k tb errors i ms =
        (.exhausted errs2, (List.range ms.length).map (fun d => (k, i + d))) := by
  intro ms
  induction ms with
  | nil =>
    intro i errors _
    exact ⟨errors, by rw [try_models_nil]; rfl⟩
  | cons m rest ih =>
    intro i errors hfail
    obtain ⟨e, he, hrl⟩ := hfail 0 (by simp)
    rw [Nat.add_zero] at he
    have hcond : ¬(is_rate_limit e = true ∧ tb = false ∧ (k : Int) < (L : Int) - 1) := by
      simp [hrl]
    obtain ⟨errs2, hrec⟩ := ih (i + 1) (errors ++ [m ++ cs ": " ++ e]) (fun d hd => by
      obtain ⟨e2, he2, hr2⟩ := hfail (d + 1) (by simpa using Nat.succ_lt_succ hd)
      refine ⟨e2, ?_, hr2⟩
      rw [show i + 1 + d = i + (d + 1) by omega]
      exact he2)
    refine ⟨errs2, ?_⟩
    rw [try_models_cons_err o L k tb errors i m rest e he, if_neg hcond, hrec]
    dsimp only
    rw [List.length_cons, range_map_shift]

/-- Claim C3: with the hard-fail policy in force, if every candidate attempt
under the current credential fails with a generic (non-rate-limit) error and
the Google fallback is unavailable or yields no truthy result, then
_generate_script raises the AllProvidersExhausted message after trying every
ranked candidate exactly once (its attempt trace covers all model positions),
returning no fabricated content and leaving the key index unchanged. -/
theorem claim_C3_hard_fail_exhausted (o : AOracle) (keys models : List (List Char))
    (rashi : List Char) (k0 : Nat)
    (hfail : ∀ i, i < models.length → ∃ e, attempt_outcome o k0 i = .error e ∧
      is_rate_limit e = false)
    (hgoogle : py_truthy_opt (generate_with_google_ai o.google) = false) :
    generate_script o ⟨keys, k0⟩ models rashi =
      some ⟨.error (exhaust_msg rashi), k0,
        (List.range models.length).map (fun i => (k0, i))⟩ := by
  obtain ⟨errs2, hpass⟩ := try_models_all_fail o keys.length k0 false models 0 []
    (fun d hd => by simpa using hfail d hd)
  have htrace : (List.range models.length).map (fun d => (k0, 0 + d)) =
      (List.range models.length).map (fun i => (k0, i)) := by
    apply List.map_congr_left
    intro d _
    simp
  rw [htrace] at hpass
  show generate_script_fuel 2 o ⟨keys, k0⟩ models rashi = _
  unfold generate_script_fuel
  rw [show (KeyState.mk keys k0).api_keys.length = keys.length from rfl,
    show (KeyState.mk keys k0).current_key_index = k0 from rfl]
  rw [script_loop_succ_exhausted o models keys.length 1 k0 false [] errs2 _ hpass]
  rcases hg : generate_with_google_ai o.google with _ | j
  · rfl
  · rw [hg] at hgoogle
    simp only [py_truthy_opt] at hgoogle
    simp [hgoogle]

/-- Witness for C3: one key, two models, every JSON-mode call raising a
generic server error, no Google model configured. -/
theorem claim_C3_hard_fail_exhausted_witness :
    generate_script
        ⟨fun _ _ => .error (cs "500 Internal Server Error"),
         fun _ _ => .error (cs "unused"), none⟩
        ⟨[cs "k1"], 0⟩ [cs "m1", cs "m2"] (cs "Mesh") =
      some ⟨.error (exhaust_msg (cs "Mesh")), 0,
        (List.range ([cs "m1", cs "m2"]).length).map (fun i => (0, i))⟩ := by
  apply claim_C3_hard_fail_exhausted
  · intro i hi
    exact ⟨cs "500 Internal Server Error", rfl, by decide⟩
  · decide

/-! ## DirectorAgent.create_screenplay and _generate_with_google_ai.  The
oracle fixes whether a google model is configured, the generate_content
outcome, and the outcome of each OpenRouter attempt per (outer-loop
iteration, model position) — the outer for-loop over range(2) can revisit
the same model. -/

/-- Oracle for the director's external calls. -/
structure DOracle where
  google_model : Bool
  google_gen : Except (List Char) (List Char)
  attempt : Nat → Nat → Except (List Char) (List Char)

/-- The fixed section list of create_screenplay. -/
def sections : List (List Char) :=
  [cs "hook", cs "love", cs "career", cs "money", cs "health", cs "lucky_item"]

/-- The Japanese-themed fallback dict returned by the director's
_generate_with_google_ai except handler. -/
def zen_helper_fallback : JValue :=
  .obj [(cs "mood", .str (cs "zen")),
    (cs "scenes", .obj (sections.map (fun k =>
      (k, .str (cs "Cherry blossoms floating softly zen garden peaceful")))))]

/-- The ultimate fallback dict returned when all director models fail. -/
def ultimate_fallback : JValue :=
  .obj [(cs "mood", .str (cs "zen")),
    (cs "scenes", .obj [
      (cs "hook", .str (cs "Mystical torii gate sunrise fog ethereal")),
      (cs "love", .str (cs "Couple cherry blossoms sunset romantic temple")),
      (cs "career", .str (cs "Tokyo skyline success confidence morning")),
      (cs "money", .str (cs "Golden maneki-neko coins prosperity traditional")),
      (cs "health", .str (cs "Zen garden meditation peaceful bamboo")),
      (cs "lucky_item", .str (cs "Omamori charm shrine spiritual protection"))])]

/-- Embedding of DirectorAgent._generate_with_google_ai: None when no google
model; otherwise the parsed fenced JSON, with the except handler substituting
the Japanese-themed fallback when generate_content raises or parsing fails. -/
def d_generate_with_google_ai (o : DOracle) : Option JValue :=
  if o.google_model = false then none
  else
    match o.google_gen with
    | .error _ => some zen_helper_fallback
    | .ok text =>
      match loads (trimWs (extract_fenced text)) with
      | some j => some j
      | none => some zen_helper_fallback

/-- The literal "Remaining': '0'" marker (line 232), built without raw
apostrophes. -/
def remaining_zero_marker : List Char :=
  cs "Remaining" ++ [apos] ++ cs ": " ++ [apos] ++ cs "0" ++ [apos]

/-- The daily-free-limit classification (line 232). -/
def is_daily_limit (e : List Char) : Bool :=
  hasSubstr (cs "free-models-per-day") (lower e) || hasSubstr remaining_zero_marker e

/-- Outcome of one inner for-loop pass of create_screenplay. -/
inductive DPassOut where
  | success (j : JValue)
  | daily
  | rotated
  | exhausted

/-- One pass of the director's inner model loop in outer iteration li under
key k: each attempt either parses (json.loads inside the try) or its raised
message is classified: daily-limit breaks both loops, a rate-limit error
rotates (once) or sleeps and continues, anything else continues. -/
def d_try_models (o : DOracle) (L li k : Nat) (tb : Bool) :
    Nat → List (List Char) → DPassOut
  | _, [] => .exhausted
  | i, _ :: rest =>
    let att : Except (List Char) JValue :=
      match o.attempt li i with
      | .ok raw =>
        match loads raw with
        | some j => .ok j
        | none => .error json_decode_error_msg
      | .error e => .error e
    match att with
    | .ok j => .success j
    | .error e =>
      if is_daily_limit e = true then .daily
      else if is_rate_limit e = true then
        if tb = false ∧ (k : Int) < (L : Int) - 1 then .rotated
        else d_try_models o L li k tb (i + 1) rest
      else d_try_models o L li k tb (i + 1) rest

/-- The for-loop over range(2): a rotation or a completed pass both consume
one outer iteration (rotation restarts the models under the next key with
tried_backup set); a daily-limit break or loop exhaustion falls through to
the ultimate fallback. -/
def d_loop_go (o : DOracle) (L : Nat) (models : List (List Char)) :
    Nat → Nat → Nat → Bool → JValue
  | 0, _, _, _ => ultimate_fallback
  | n + 1, li, k, tb =>
    match d_try_models o L li k tb 0 models with
    | .success j => j
    | .daily => ultimate_fallback
    | .rotated => d_loop_go o L models n (li + 1) (k + 1) true
    | .exhausted => d_loop_go o L models n (li + 1) k tb

/-- Model of Python str() on JSON-shaped values (identity on strings, the
serialised text otherwise); it only ever feeds the prompt text. -/
def py_str (v : JValue) : List Char :=
  match v with
  | .str s => s
  | other => serVal other

/-- " ".join of pieces. -/
def joinSp : List (List Char) → List Char
  | [] => []
  | [x] => x
  | x :: y :: rest => x ++ ' ' :: joinSp (y :: rest)

/-- The full_script_text computation of create_screenplay (lines 142-147):
a dict contributes its section values in order, a list its truthy items, and
anything else its str() rendering. -/
def full_script_text (script_data : JValue) : List Char :=
  match script_data with
  | .obj fs =>
    joinSp ((sections.filter (fun k => (jGet (.obj fs) k).isSome)).map
      (fun k => py_str ((jGet (.obj fs) k).getD (.str []))))
  | .arr xs => joinSp ((xs.filter py_truthy).map py_str)
  | other => py_str other

/-- Embedding of DirectorAgent.create_screenplay: compute the script text
(it feeds only the prompts), try Google AI first when configured and return
any truthy helper result immediately (after the 60s cooldown), and otherwise
run the bounded two-iteration OpenRouter loop, ending at the ultimate
fallback. -/
def create_screenplay (o : DOracle) (st : KeyState) (models : List (List Char))
    (script_data : JValue) : JValue :=
  let _fst := (full_script_text script_data).take 500
  if o.google_model then
    match d_generate_with_google_ai o with
    | some j =>
      if py_truthy j then j
      else d_loop_go o st.api_keys.length models 2 0 st.current_key_index false
    | none => d_loop_go o st.api_keys.length models 2 0 st.current_key_index false
  else d_loop_go o st.api_keys.length models 2 0 st.current_key_index false

/-- The helper's result when the google model is configured (null stands for
the unreachable None). -/
def helper_result (o : DOracle) : JValue := (d_generate_with_google_ai o).getD .null

/-- Surface check that an external call raised. -/
def exceptFailed : Except (List Char) (List Char) → Bool
  | .error _ => true
  | .ok _ => false

/-- Claim C4 counterexample: with the secondary provider configured and its
attempt raising, create_screenplay does NOT proceed to the ranked-candidate
loop — it returns the helper's Japanese-themed fallback dict, even though the
candidate loop would have produced a different (distinguishable) result. -/
theorem claim_C4_counterexample :
    create_screenplay
        ⟨true, .error (cs "boom"),
         fun _ _ => .ok (cs "\x7b\"mood\": \"from_openrouter\"\x7d")⟩
        ⟨[cs "k1"], 0⟩ [cs "m1"] (.obj []) = zen_helper_fallback ∧
    d_loop_go
        ⟨true, .error (cs "boom"),
         fun _ _ => .ok (cs "\x7b\"mood\": \"from_openrouter\"\x7d")⟩
        1 [cs "m1"] 2 0 0 false =
      .obj [(cs "mood", .str (cs "from_openrouter"))] ∧
    zen_helper_fallback ≠ .obj [(cs "mood", .str (cs "from_openrouter"))] := by
  refine ⟨by decide, by decide, by decide⟩

/-- Claim C4 (amended): when the secondary provider is configured and
prioritised, create_screenplay attempts it first and the helper always
produces a result: if that result is truthy — the parsed output on success,
or the fixed Japanese-themed fallback mapping when the attempt raises or its
output fails to parse — it is returned immediately after the mandatory
cooldown; only when the helper's parsed result is falsy (e.g. an empty
mapping) does create_screenplay proceed to the full ranked-candidate loop,
which the secondary attempt does not count against. -/
theorem claim_C4_google_priority (o : DOracle) (st : KeyState)
    (models : List (List Char)) (sd : JValue) (hg : o.google_model = true) :
    (d_generate_with_google_ai o).isSome = true ∧
    (py_truthy (helper_result o) = true →
      create_screenplay o st models sd = helper_result o) ∧
    (py_truthy (helper_result o) = false →
      create_screenplay o st models sd =
        d_loop_go o st.api_keys.length models 2 0 st.current_key_index false) ∧
    (exceptFailed o.google_gen = true → helper_result o = zen_helper_fallback) := by
  have hsome : ∃ j, d_generate_with_google_ai o = some j := by
    unfold d_generate_with_google_ai
    rw [hg]
    rcases hgen : o.google_gen with e | text
    · exact ⟨zen_helper_fallback, rfl⟩
    · dsimp only
      rcases hp : loads (trimWs (extract_fenced text)) with _ | j
      · exact ⟨zen_helper_fallback, rfl⟩
      · exact ⟨j, rfl⟩
  obtain ⟨j, hj⟩ := hsome
  have hres : helper_result o = j := by rw [helper_result, hj]; rfl
  refine ⟨by rw [hj]; rfl, ?_, ?_, ?_⟩
  · intro hpt
    rw [hres] at hpt
    unfold create_screenplay
    rw [hg, if_pos rfl, hj]
    dsimp only
    rw [if_pos hpt, hres]
  · intro hpt
    rw [hres] at hpt
    unfold create_screenplay
    rw [hg, if_pos rfl, hj]
    dsimp only
    rw [if_neg (by rw [hpt]; exact Bool.false_ne_true)]
  · intro hfailed
    rcases hgen : o.google_gen with e | text
    · have hh : d_generate_with_google_ai o = some zen_helper_fallback := by
        unfold d_generate_with_google_ai
        rw [hg, hgen]
        rfl
      rw [helper_result, hh]
      rfl
    · rw [hgen] at hfailed
      exact absurd hfailed (by simp [exceptFailed])

/-- Witness for C4 (amended) at a configured google model whose attempt
raises: the helper result is the zen fallback, it is truthy, and it is what
create_screenplay returns. -/
theorem claim_C4_google_priority_witness :
    (d_generate_with_google_ai
      ⟨true, .error (cs "boom"), fun _ _ => .error (cs "x")⟩).isSome = true ∧
    create_screenplay ⟨true, .error (cs "boom"), fun _ _ => .error (cs "x")⟩
        ⟨[cs "k1"], 0⟩ [cs "m1"] (.obj []) =
      helper_result ⟨true, .error (cs "boom"), fun _ _ => .error (cs "x")⟩ ∧
    helper_result ⟨true, .error (cs "boom"), fun _ _ => .error (cs "x")⟩ =
      zen_helper_fallback := by
  have h := claim_C4_google_priority
    ⟨true, .error (cs "boom"), fun _ _ => .error (cs "x")⟩
    ⟨[cs "k1"], 0⟩ [cs "m1"] (.obj []) rfl
  exact ⟨h.1, h.2.1 (by decide), h.2.2.2 rfl⟩

/-- Every OpenRouter attempt fails to produce parsed JSON. -/
def d_all_attempts_fail (o : DOracle) : Prop :=
  ∀ li i, match o.attempt li i with
    | .ok raw => loads raw = none
    | .error _ => True

/-- The Google path yields a live truthy parse. -/
def d_google_live_success (o : DOracle) : Prop :=
  o.google_model = true ∧ ∃ text j, o.google_gen = .ok text ∧
    loads (trimWs (extract_fenced text)) = some j ∧ py_truthy j = true

theorem d_try_models_no_success (o : DOracle) (L li k : Nat) (tb : Bool)
    (hfail : d_all_attempts_fail o) :
    ∀ (ms : List (List Char)) (i : Nat) (j : JValue),
      d_try_models o L li k tb i ms ≠ .success j := by
  intro ms
  induction ms with
  | nil =>
    intro i j h
    exact absurd h (by rw [d_try_models]; simp)
  | cons m rest ih =>
    intro i j h
    rw [d_try_models] at h
    have hatt := hfail li i
    rcases hq : o.attempt li i with e | raw
    · rw [hq] at h
      dsimp only at h
      split_ifs at h with h1 h2 h3 <;>
        first
          | exact ih (i + 1) j h
          | cases h
    · rw [hq] at hatt h
      dsimp only at hatt h
      rw [hatt] at h
      dsimp only at h
      split_ifs at h with h1 h2 h3 <;>
        first
          | exact ih (i + 1) j h
          | cases h

theorem d_loop_go_fallback (o : DOracle) (L : Nat) (models : List (List Char))
    (hfail : d_all_attempts_fail o) :
    ∀ (n li k : Nat) (tb : Bool), d_loop_go o L models n li k tb = ultimate_fallback := by
  intro n
  induction n with
  | zero => intro li k tb; rfl
  | succ g ih =>
    intro li k tb
    rw [d_loop_go]
    rcases hq : d_try_models o L li k tb 0 models with j | _ | _ | _
    · exact absurd hq (d_try_models_no_success o L li k tb hfail models 0 j)
    · rfl
    · exact ih (li + 1) (k + 1) true
    · exact ih (li + 1) k tb

/-- Claim C10: create_screenplay is total (the embedding is a total function
of the inputs and the oracle; every backend exception is caught), and when
all live paths fail — every OpenRouter attempt fails to yield JSON and the
Google path gives no live truthy parse — it returns one of the two fixed
statically defined fallback mappings, both of which contain the keys "mood"
and "scenes". -/
theorem claim_C10_screenplay_total (o : DOracle) (st : KeyState)
    (models : List (List Char)) (sd : JValue)
    (hfail : d_all_attempts_fail o)
    (hng : ¬ d_google_live_success o) :
    (create_screenplay o st models sd = zen_helper_fallback ∨
     create_screenplay o st models sd = ultimate_fallback) ∧
    (jGet (create_screenplay o st models sd) (cs "mood")).isSome = true ∧
    (jGet (create_screenplay o st models sd) (cs "scenes")).isSome = true := by
  have hloop := d_loop_go_fallback o st.api_keys.length models hfail
  have hmain : create_screenplay o st models sd = zen_helper_fallback ∨
      create_screenplay o st models sd = ultimate_fallback := by
    rcases hgm : o.google_model with _ | _
    · have hcs : create_screenplay o st models sd =
          d_loop_go o st.api_keys.length models 2 0 st.current_key_index false := by
        unfold create_screenplay
        rw [hgm, if_neg (by exact Bool.false_ne_true)]
      rw [hcs]
      exact Or.inr (hloop 2 0 st.current_key_index false)
    · rcases hgen : o.google_gen with e | text
      · have hh : d_generate_with_google_ai o = some zen_helper_fallback := by
          unfold d_generate_with_google_ai
          rw [hgm, hgen]
          rfl
        have hcs : create_screenplay o st models sd = zen_helper_fallback := by
          unfold create_screenplay
          rw [hgm, if_pos rfl, hh]
          dsimp only
          rw [if_pos (by decide)]
        rw [hcs]
        exact Or.inl rfl
      · rcases hp : loads (trimWs (extract_fenced text)) with _ | j
        · have hh : d_generate_with_google_ai o = some zen_helper_fallback := by
            unfold d_generate_with_google_ai
            rw [hgm, hgen]
            dsimp only
            rw [hp]
            rfl
          have hcs : create_screenplay o st models sd = zen_helper_fallback := by
            unfold create_screenplay
            rw [hgm, if_pos rfl, hh]
            dsimp only
            rw [if_pos (by decide)]
          rw [hcs]
          exact Or.inl rfl
        · have hh : d_generate_with_google_ai o = some j := by
            unfold d_generate_with_google_ai
            rw [hgm, hgen]
            dsimp only
            rw [hp]
            rfl
          by_cases hpt : py_truthy j = true
          · exact absurd ⟨hgm, text, j, hgen, hp, hpt⟩ hng
          · have hcs : create_screenplay o st models sd =
                d_loop_go o st.api_keys.length models 2 0 st.current_key_index false := by
              unfold create_screenplay
              rw [hgm, if_pos rfl, hh]
              dsimp only
              rw [if_neg (by rw [Bool.not_eq_true] at hpt; rw [hpt]; exact Bool.false_ne_true)]
            rw [hcs]
            exact Or.inr (hloop 2 0 st.current_key_index false)
  refine ⟨hmain, ?_, ?_⟩ <;> rcases hmain with h | h <;> rw [h] <;> decide

/-- Witness for C10: no google model, one always-raising model attempt — the
result is the ultimate fallback with mood and scenes present. -/
theorem claim_C10_screenplay_total_witness :
    (create_screenplay ⟨false, .error (cs "off"), fun _ _ => .error (cs "boom")⟩
        ⟨[cs "k1"], 0⟩ [cs "m1"] (.obj []) = zen_helper_fallback ∨
     create_screenplay ⟨false, .error (cs "off"), fun _ _ => .error (cs "boom")⟩
        ⟨[cs "k1"], 0⟩ [cs "m1"] (.obj []) = ultimate_fallback) ∧
    (jGet (create_screenplay ⟨false, .error (cs "off"), fun _ _ => .error (cs "boom")⟩
        ⟨[cs "k1"], 0⟩ [cs "m1"] (.obj [])) (cs "mood")).isSome = true ∧
    (jGet (create_screenplay ⟨false, .error (cs "off"), fun _ _ => .error (cs "boom")⟩
        ⟨[cs "k1"], 0⟩ [cs "m1"] (.obj [])) (cs "scenes")).isSome = true :=
  claim_C10_screenplay_total _ _ _ _ (fun li i => by trivial)
    (fun h => by exact absurd h.1 (by decide))
